import Mathlib

/-!
sch-cvss-2018: the SE(3) loop pose-graph constructor and the matcher key loop

Shallow embedding of

* `slam-2018-fall/GraphOpt/G2oExample/g2oapp/se3loopconstructor.cpp`
  (`SE3LoopConstructor`), and
* the key dispatch of the frame loop of
  `fall-2018-SLAM/KeyPointsDescriptors/DescriptorMatcher/main.cpp`.

The `double` scalars of the constructor are elements of an ordered field `K`; all
definitions are computable for a computable `K` such as `ℚ`.  The rigid-pose library,
the scalar functions of `<cmath>` and the random generator are collaborators of the
sources and enter as explicit parameters.  The `float` accept ratio of the matcher is
a binary32 number, held as the rational it stands for, with the rounding of each
operation made explicit.
-/

set_option autoImplicit false

/-! ## Vectors and quaternions (the part of Eigen the sources touch) -/

/-- A 3-vector, as `Eigen::Vector3d`. -/
structure Vector3d (K : Type) where
  x : K
  y : K
  z : K
deriving DecidableEq, Repr

/-- A 4-vector, as `Eigen::Vector4d`. -/
structure Vector4d (K : Type) where
  x : K
  y : K
  z : K
  w : K
deriving DecidableEq, Repr

/-- A quaternion, as `Eigen::Quaterniond`; its coefficient vector is stored in the
order `(x, y, z, w)`. -/
structure Quaterniond (K : Type) where
  x : K
  y : K
  z : K
  w : K
deriving DecidableEq, Repr

namespace Vector3d

variable {K : Type}

/-- Sum of two vectors, as `operator+`. -/
def add [Add K] (a b : Vector3d K) : Vector3d K := ⟨a.x + b.x, a.y + b.y, a.z + b.z⟩

/-- Difference of two vectors, as `operator-`. -/
def sub [Sub K] (a b : Vector3d K) : Vector3d K := ⟨a.x - b.x, a.y - b.y, a.z - b.z⟩

/-- Coefficient-wise product, as `cwiseProduct`. -/
def cwiseProduct [Mul K] (a b : Vector3d K) : Vector3d K := ⟨a.x * b.x, a.y * b.y, a.z * b.z⟩

/-- The vector with all coefficients `c`, as `Vector3d::Constant(c)`. -/
def Constant (c : K) : Vector3d K := ⟨c, c, c⟩

/-- Product with a scalar, as `operator*`. -/
def scale [Mul K] (a : Vector3d K) (c : K) : Vector3d K := ⟨a.x * c, a.y * c, a.z * c⟩

/-- Cross product, as `cross`. -/
def cross [Mul K] [Sub K] (a b : Vector3d K) : Vector3d K :=
  ⟨a.y * b.z - a.z * b.y, a.z * b.x - a.x * b.z, a.x * b.y - a.y * b.x⟩

/-- The vector `Vector3d::Random()`: its coefficients are the next three values of the
generator, `random n`, `random (n + 1)`, `random (n + 2)`, in coefficient order. -/
def Random (random : Nat → K) (n : Nat) : Vector3d K := ⟨random n, random (n + 1), random (n + 2)⟩

end Vector3d

namespace Vector4d

variable {K : Type}

/-- Sum of two vectors, as `operator+`. -/
def add [Add K] (a b : Vector4d K) : Vector4d K := ⟨a.x + b.x, a.y + b.y, a.z + b.z, a.w + b.w⟩

/-- Difference of two vectors, as `operator-`. -/
def sub [Sub K] (a b : Vector4d K) : Vector4d K := ⟨a.x - b.x, a.y - b.y, a.z - b.z, a.w - b.w⟩

/-- Coefficient-wise product, as `cwiseProduct`. -/
def cwiseProduct [Mul K] (a b : Vector4d K) : Vector4d K :=
  ⟨a.x * b.x, a.y * b.y, a.z * b.z, a.w * b.w⟩

/-- The vector with all coefficients `c`, as `Vector4d::Constant(c)`. -/
def Constant (c : K) : Vector4d K := ⟨c, c, c, c⟩

/-- The vector `Vector4d::Random()`: the next four values of the generator. -/
def Random (random : Nat → K) (n : Nat) : Vector4d K :=
  ⟨random n, random (n + 1), random (n + 2), random (n + 3)⟩

end Vector4d

namespace Quaterniond

variable {K : Type}

/-- The coefficient vector `(x, y, z, w)`, as `coeffs()`. -/
def coeffs (q : Quaterniond K) : Vector4d K := ⟨q.x, q.y, q.z, q.w⟩

/-- The quaternion with the given coefficient vector, as `Quaterniond(const Vector4d&)`. -/
def ofCoeffs (v : Vector4d K) : Quaterniond K := ⟨v.x, v.y, v.z, v.w⟩

/-- The vector part, as `vec()`. -/
def vec (q : Quaterniond K) : Vector3d K := ⟨q.x, q.y, q.z⟩

/-- The identity rotation, as `setIdentity()`. -/
def Identity [Zero K] [One K] : Quaterniond K := ⟨0, 0, 0, 1⟩

end Quaterniond

/-! ## Collaborators -/

/-- The scalar environment of `setCirclePoseVertices`: the functions `sin`, `cos` (and
`sqrt`, behind the normalisation of a quaternion) of `<cmath>`, and the value of the
local constant `PI` (`3.141592653589793` in the source), kept as a parameter so that
it can also be read as the exact `π`. -/
structure MathEnv (K : Type) where
  PI : K
  sin : K → K
  cos : K → K
  sqrt : K → K

/-- Modelled from the spec: the rigid-pose library (`g2o::SE3Quat`) whose header is
not part of the sources, "exposing: quaternion, translation, composition, inverse,
rotation normalization".  `identity` is the default-constructed pose, `ofQuatTran quat tran`
the pose `SE3Quat(quat, tran)`, `mul` is `operator*`. -/
structure PoseLib (K P : Type) where
  identity : P
  ofQuatTran : Quaterniond K → Vector3d K → P
  mul : P → P → P
  inverse : P → P
  translation : P → Vector3d K
  rotation : P → Quaterniond K
  normalizeRotation : P → P

/-- The quaternion of a rotation by `angle` about `axis`, the conversion
`quat = Eigen::AngleAxisd(angle, axis)`: `w = cos(angle/2)`, `vec = sin(angle/2) * axis`. -/
def Quaterniond.ofAngleAxis {K : Type} [Field K] (M : MathEnv K) (angle : K)
    (axis : Vector3d K) : Quaterniond K :=
  let ha := (1 / 2) * angle
  ⟨M.sin ha * axis.x, M.sin ha * axis.y, M.sin ha * axis.z, M.cos ha⟩

/-! ## The optimizer graph -/

/-- The configuration `G2oConfig`. -/
structure G2oConfig (K : Type) where
  init_vtx : Bool
  edge_noise : Bool
  tran_noise : Vector3d K
  quat_noise : Vector4d K

/-- A pose vertex, as `g2o::VertexSE3`: `estimate` is `none` while `setEstimate` has not
been called (the estimate is then whatever the optimizer defaults to). -/
structure VertexSE3 (P : Type) where
  id : Nat
  estimate : Option P
  fixed : Bool

/-- A pose-pose edge, as `g2o::EdgeSE3`: the ids of the two vertices it is attached to,
the measurement and the 6×6 information matrix (rows of coefficients). -/
structure EdgeSE3 (K P : Type) where
  id0 : Nat
  id1 : Nat
  measurement : P
  information : List (List K)

/-- The graph held by `g2o::SparseOptimizer`: `vertices` is the id-keyed vertex map
(entries in insertion order), `edges` the edges in insertion order. -/
structure SparseOptimizer (K P : Type) where
  vertices : List (VertexSE3 P)
  edges : List (EdgeSE3 K P)

namespace SparseOptimizer

variable {K P : Type}

/-- The empty graph. -/
def empty : SparseOptimizer K P := ⟨[], []⟩

/-- Vertex lookup by id, `vertices().find(id)`; `none` stands for `end()`. -/
def find (o : SparseOptimizer K P) (id : Nat) : Option (VertexSE3 P) :=
  o.vertices.find? (fun v => v.id == id)

/-- Modelled from the spec: `addVertex` ("add vertex with id, estimate, fixed") on the
id-keyed vertex map, which holds one vertex per id: a vertex whose id is already a key
is not inserted. -/
def addVertex (o : SparseOptimizer K P) (v : VertexSE3 P) : SparseOptimizer K P :=
  match o.find v.id with
  | some _ => o
  | none => { o with vertices := o.vertices ++ [v] }

/-- Modelled from the spec: `addEdge` ("add edge linking two vertex-ids with
measurement and information matrix"). -/
def addEdge (o : SparseOptimizer K P) (e : EdgeSE3 K P) : SparseOptimizer K P :=
  { o with edges := o.edges ++ [e] }

end SparseOptimizer

/-- What the constructor writes to `std::cout`, one entry per statement that prints. -/
inductive Output (P : Type) where
  | addPose (pose : P)
  | relposeLast (relpose : P)
  | noiseBefore (srcpose : P)
  | noiseAfter (pose : P)
  | addEdge (id0 id1 : Nat) (relpose : P)

/-- The matrix `Eigen::MatrixXd::Identity(n, n) * c`, as rows of coefficients. -/
def scaledIdentity {K : Type} [Zero K] (n : Nat) (c : K) : List (List K) :=
  (List.range n).map fun i => (List.range n).map fun j => if i = j then c else 0

/-! ## The constructor object -/

/-- The object `SE3LoopConstructor`: the members of the base `GraphConstructor`
(`optimizer`, `config`, `gt_poses`, the counter behind `getNewID`), the members
`traj_radius` and `center`, and with them the two pieces of process state the methods
use: how many values have been drawn from the random generator, and the output. -/
structure SE3LoopConstructor (K P : Type) where
  optimizer : SparseOptimizer K P
  config : G2oConfig K
  gt_poses : List P
  vertex_id : Nat
  traj_radius : K
  center : Vector3d K
  rand_calls : Nat
  cout : List (Output P)

namespace SE3LoopConstructor

variable {K P : Type}

/-- The constructor `SE3LoopConstructor()` on top of a freshly constructed base:
empty ground-truth list, id counter at 0, `traj_radius = 2.`,
`center = (1., traj_radius, 0.)`. The optimizer and the configuration are set by
`construct`. -/
def new [Field K] (config : G2oConfig K) : SE3LoopConstructor K P :=
  let traj_radius : K := 2
  { optimizer := SparseOptimizer.empty
    config := config
    gt_poses := []
    vertex_id := 0
    traj_radius := traj_radius
    center := ⟨1, traj_radius, 0⟩
    rand_calls := 0
    cout := [] }

/-- Modelled from the spec: `getNewID` of the base class `GraphConstructor`, whose
source is missing: "returns a fresh, strictly increasing vertex id starting at 0". -/
def getNewID (self : SE3LoopConstructor K P) : Nat × SE3LoopConstructor K P :=
  (self.vertex_id, { self with vertex_id := self.vertex_id + 1 })

/-- The method `addPoseVertex(g2o::SE3Quat& pose, bool set_fixed)`. -/
def addPoseVertex (self : SE3LoopConstructor K P) (pose : P) (set_fixed : Bool) :
    SE3LoopConstructor K P :=
  let self := { self with cout := self.cout ++ [Output.addPose pose] }
  let (id, self) := self.getNewID
  let v_se3 : VertexSE3 P :=
    { id := id
      estimate := if set_fixed || self.config.init_vtx then some pose else none
      fixed := set_fixed }
  let self := { self with optimizer := self.optimizer.addVertex v_se3 }
  { self with gt_poses := self.gt_poses ++ [pose] }

/-- The method `addPoseVertex(Eigen::Quaterniond quat, Eigen::Vector3d tran, bool set_fixed)`. -/
def addPoseVertexQuatTran (L : PoseLib K P) (self : SE3LoopConstructor K P)
    (quat : Quaterniond K) (tran : Vector3d K) (set_fixed : Bool) : SE3LoopConstructor K P :=
  let pose := L.ofQuatTran quat tran
  self.addPoseVertex pose set_fixed

/-- The method `setInitPoseVertices`. -/
def setInitPoseVertices [Field K] (L : PoseLib K P) (self : SE3LoopConstructor K P) :
    SE3LoopConstructor K P :=
  -- first vertex at origin
  let tran : Vector3d K := ⟨0, 0, 0⟩
  let quat : Quaterniond K := Quaterniond.Identity
  let self := self.addPoseVertexQuatTran L quat tran true
  -- second vertex at 1,0,0
  let tran : Vector3d K := ⟨self.center.x, 0, 0⟩
  let quat : Quaterniond K := Quaterniond.Identity
  self.addPoseVertexQuatTran L quat tran true

/-- The constant `CIRCLE_NODES` of `setCirclePoseVertices`. -/
def CIRCLE_NODES : Nat := 10

/-- The pose `relpose` of `setCirclePoseVertices`: the step along the circle. -/
def circleRelpose [Field K] (M : MathEnv K) (L : PoseLib K P) (traj_radius : K) : P :=
  let angle : K := 2 * M.PI / (CIRCLE_NODES : K)
  let quat : Quaterniond K := Quaterniond.ofAngleAxis M angle ⟨0, 0, 1⟩
  let tran : Vector3d K :=
    ⟨traj_radius * M.sin angle, traj_radius - traj_radius * M.cos angle, 0⟩
  L.ofQuatTran quat tran

/-- One pass of the loop of `setCirclePoseVertices`; `none` when `gt_poses.back()` is
taken of an empty list.  The call `addPoseVertex(abspose)` leaves `set_fixed` at its
default, `false` (Modelled from the spec: "Circle vertices (all non-fixed)"; the
default is declared in the missing header). -/
def circleStep (L : PoseLib K P) (relpose : P) (self : SE3LoopConstructor K P) :
    Option (SE3LoopConstructor K P) :=
  match self.gt_poses.getLast? with
  | none => none
  | some back =>
    let abspose := L.mul back relpose
    some (self.addPoseVertex abspose false)

/-- The method `setCirclePoseVertices`. -/
def setCirclePoseVertices [Field K] (M : MathEnv K) (L : PoseLib K P)
    (self : SE3LoopConstructor K P) : Option (SE3LoopConstructor K P) :=
  let relpose := circleRelpose M L self.traj_radius
  (List.range CIRCLE_NODES).foldlM (fun self _ => circleStep L relpose self) self

/-- The vector `tran_w_noise` of `addNoisePoseMeasurement`; `n` is the number of values
drawn from the generator so far. -/
def tran_w_noise [Field K] (L : PoseLib K P) (config : G2oConfig K) (random : Nat → K)
    (n : Nat) (srcpose : P) : Vector3d K :=
  (L.translation srcpose).add
    (config.tran_noise.cwiseProduct
      ((Vector3d.Random random n).sub (Vector3d.Constant (1 / 2))))

/-- The vector `rota_w_noise` of `addNoisePoseMeasurement`; `n` is the number of values
drawn from the generator so far. -/
def rota_w_noise [Field K] (L : PoseLib K P) (config : G2oConfig K) (random : Nat → K)
    (n : Nat) (srcpose : P) : Vector4d K :=
  (L.rotation srcpose).coeffs.add
    (config.quat_noise.cwiseProduct
      ((Vector4d.Random random n).sub (Vector4d.Constant (1 / 2))))

/-- The method `addNoisePoseMeasurement`: the noised pose and the object after the
seven draws and the two prints. -/
def addNoisePoseMeasurement [Field K] (L : PoseLib K P) (random : Nat → K)
    (self : SE3LoopConstructor K P) (srcpose : P) : P × SE3LoopConstructor K P :=
  let self := { self with cout := self.cout ++ [Output.noiseBefore srcpose] }
  let tran := tran_w_noise L self.config random self.rand_calls srcpose
  let self := { self with rand_calls := self.rand_calls + 3 }
  let rota := rota_w_noise L self.config random self.rand_calls srcpose
  let self := { self with rand_calls := self.rand_calls + 4 }
  let quat_w_noise := Quaterniond.ofCoeffs rota
  let pose_w_noise := L.ofQuatTran quat_w_noise tran
  let pose_w_noise := L.normalizeRotation pose_w_noise
  let self := { self with cout := self.cout ++ [Output.noiseAfter pose_w_noise] }
  (pose_w_noise, self)

/-- The method `addEdgePosePose`; `none` when one of the two lookups
`optimizer->vertices().find(id)` ends at `end()`, which the source dereferences. -/
def addEdgePosePose [Field K] (self : SE3LoopConstructor K P) (id0 id1 : Nat) (relpose : P) :
    Option (SE3LoopConstructor K P) :=
  let self := { self with cout := self.cout ++ [Output.addEdge id0 id1 relpose] }
  match self.optimizer.find id0, self.optimizer.find id1 with
  | some v0, some v1 =>
    let edge : EdgeSE3 K P :=
      { id0 := v0.id
        id1 := v1.id
        measurement := relpose
        information := scaledIdentity 6 10 }
    some { self with optimizer := self.optimizer.addEdge edge }
  | _, _ => none

/-- One pass of the first loop of `setEdgesBtwPoses`, at index `i`; `none` when an
index is out of the bounds of `gt_poses` or a vertex lookup fails. -/
def chainStep [Field K] (L : PoseLib K P) (random : Nat → K)
    (self : SE3LoopConstructor K P) (i : Nat) : Option (SE3LoopConstructor K P) :=
  match self.gt_poses[i - 1]?, self.gt_poses[i]? with
  | some prev, some cur =>
    let relpose := L.mul (L.inverse prev) cur
    let (relpose, self) :=
      if self.config.edge_noise then addNoisePoseMeasurement L random self relpose
      else (relpose, self)
    self.addEdgePosePose (i - 1) i relpose
  | _, _ => none

/-- The method `setEdgesBtwPoses`: the loop `for(size_t i=1; i<gt_poses.size(); i++)`
(its body leaves `gt_poses` alone, so the bound is the size on entry), then the
loop-closure edge. -/
def setEdgesBtwPoses [Field K] (L : PoseLib K P) (random : Nat → K)
    (self : SE3LoopConstructor K P) : Option (SE3LoopConstructor K P) := do
  let self ← (List.range' 1 (self.gt_poses.length - 1)).foldlM (chainStep L random) self
  -- the last pose supposed to be the same as gt_poses[1]
  let first ← self.gt_poses[1]?
  let back ← self.gt_poses.getLast?
  let relpose := L.mul (L.inverse first) back
  let self := { self with cout := self.cout ++ [Output.relposeLast relpose] }
  let (relpose, self) :=
    if self.config.edge_noise then addNoisePoseMeasurement L random self relpose
    else (relpose, self)
  self.addEdgePosePose 1 (self.gt_poses.length - 1) relpose

/-- The method `construct`. -/
def construct [Field K] (M : MathEnv K) (L : PoseLib K P) (random : Nat → K)
    (self : SE3LoopConstructor K P) (_optimizer : SparseOptimizer K P)
    (_config : G2oConfig K) : Option (SE3LoopConstructor K P) := do
  let self := { self with optimizer := _optimizer, config := _config }
  -- add pose vertices at (0,0,0) and (1,0,0)
  let self := self.setInitPoseVertices L
  -- add pose vertices around circle
  let self ← self.setCirclePoseVertices M L
  -- add edges between pose edges
  self.setEdgesBtwPoses L random

end SE3LoopConstructor

/-! ## The rigid-pose library over an ordered field -/

namespace Quaterniond

variable {K : Type}

/-- Quaternion product, as `operator*` of `Eigen::Quaterniond`. -/
def mul [Ring K] (a b : Quaterniond K) : Quaterniond K :=
  { w := a.w * b.w - a.x * b.x - a.y * b.y - a.z * b.z
    x := a.w * b.x + a.x * b.w + a.y * b.z - a.z * b.y
    y := a.w * b.y + a.y * b.w + a.z * b.x - a.x * b.z
    z := a.w * b.z + a.z * b.w + a.x * b.y - a.y * b.x }

/-- Conjugate, as `conjugate()`. -/
def conjugate [Neg K] (q : Quaterniond K) : Quaterniond K := ⟨-q.x, -q.y, -q.z, q.w⟩

/-- Rotation of a vector, as `operator*` of a quaternion and a 3-vector:
`uv = vec × v; uv += uv; v + w * uv + vec × uv`. -/
def transformVector [Ring K] (q : Quaterniond K) (v : Vector3d K) : Vector3d K :=
  let uv := q.vec.cross v
  let uv := uv.add uv
  (v.add (uv.scale q.w)).add (q.vec.cross uv)

/-- Squared norm of the coefficient vector, as `squaredNorm()`. -/
def squaredNorm [Ring K] (q : Quaterniond K) : K := q.x * q.x + q.y * q.y + q.z * q.z + q.w * q.w

/-- In-place normalisation, as `normalize()`: the coefficients are divided by the norm
when the squared norm is positive. -/
def normalize [LinearOrderedField K] (M : MathEnv K) (q : Quaterniond K) : Quaterniond K :=
  let z := q.squaredNorm
  if 0 < z then ⟨q.x / M.sqrt z, q.y / M.sqrt z, q.z / M.sqrt z, q.w / M.sqrt z⟩ else q

end Quaterniond

/-- Modelled from the spec: a pose as the rigid-pose library `g2o::SE3Quat` holds it
("unit quaternion + 3-vector translation"); the header of the library is not part of
the sources. -/
structure SE3Quat (K : Type) where
  r : Quaterniond K
  t : Vector3d K
deriving DecidableEq, Repr

namespace SE3Quat

variable {K : Type}

/-- The default-constructed pose: identity rotation, zero translation. -/
def Identity [Zero K] [One K] : SE3Quat K := ⟨Quaterniond.Identity, ⟨0, 0, 0⟩⟩

/-- Modelled from the spec: "rotation normalization", `normalizeRotation()`: the
quaternion is negated when its `w` is negative, then normalised. -/
def normalizeRotation [LinearOrderedField K] (M : MathEnv K) (p : SE3Quat K) : SE3Quat K :=
  let r : Quaterniond K :=
    if p.r.w < 0 then ⟨p.r.x * -1, p.r.y * -1, p.r.z * -1, p.r.w * -1⟩ else p.r
  { p with r := r.normalize M }

/-- Modelled from the spec: the pose `SE3Quat(quat, tran)`, whose constructor
normalises the rotation. -/
def ofQuatTran [LinearOrderedField K] (M : MathEnv K) (quat : Quaterniond K)
    (tran : Vector3d K) : SE3Quat K :=
  normalizeRotation M ⟨quat, tran⟩

/-- Modelled from the spec: "composition", `operator*`:
`t += r * tr2.t; r *= tr2.r; normalizeRotation()`. -/
def mul [LinearOrderedField K] (M : MathEnv K) (a tr2 : SE3Quat K) : SE3Quat K :=
  let result := a
  let result := { result with t := result.t.add (a.r.transformVector tr2.t) }
  let result := { result with r := result.r.mul tr2.r }
  result.normalizeRotation M

/-- Modelled from the spec: "inverse", `inverse()`:
`ret.r = r.conjugate(); ret.t = ret.r * (t * -1.)`. -/
def inverse [Ring K] (a : SE3Quat K) : SE3Quat K :=
  let ret : SE3Quat K := Identity
  let ret := { ret with r := a.r.conjugate }
  { ret with t := ret.r.transformVector (a.t.scale (-1)) }

end SE3Quat

/-- The rigid-pose library on `SE3Quat K`, with the scalar functions of `M`. -/
def g2oLib {K : Type} [LinearOrderedField K] (M : MathEnv K) : PoseLib K (SE3Quat K) :=
  { identity := SE3Quat.Identity
    ofQuatTran := SE3Quat.ofQuatTran M
    mul := SE3Quat.mul M
    inverse := SE3Quat.inverse
    translation := fun p => p.t
    rotation := fun p => p.r
    normalizeRotation := SE3Quat.normalizeRotation M }

/-- The group laws of a pose library: `mul`, `inverse` and `identity` make the poses a
group, as the rigid transforms of SE(3) are. -/
structure PoseLib.IsGroup {K P : Type} (L : PoseLib K P) : Prop where
  mul_assoc : ∀ a b c : P, L.mul (L.mul a b) c = L.mul a (L.mul b c)
  one_mul : ∀ a : P, L.mul L.identity a = a
  mul_one : ∀ a : P, L.mul a L.identity = a
  inv_mul_cancel : ∀ a : P, L.mul (L.inverse a) a = L.identity
  mul_inv_cancel : ∀ a : P, L.mul a (L.inverse a) = L.identity

/-- The pose library of the pure translations over `K`: a pose is its translation
vector and composition is the sum.  These poses are the rigid transforms with identity
rotation, a subgroup of SE(3); no square root is taken in it. -/
def translationLib {K : Type} [Field K] : PoseLib K (Vector3d K) :=
  { identity := ⟨0, 0, 0⟩
    ofQuatTran := fun _ tran => tran
    mul := Vector3d.add
    inverse := fun p => ⟨-p.x, -p.y, -p.z⟩
    translation := fun p => p
    rotation := fun _ => Quaterniond.Identity
    normalizeRotation := fun p => p }

/-! ## The frame loop of the matcher (`main.cpp`) -/

/-- The integer nearest to `y`, the even one of the two when `y` lies half way between
two integers. -/
def roundEven (y : ℚ) : ℤ :=
  if y - ⌊y⌋ < 1 / 2 then ⌊y⌋
  else if 1 / 2 < y - ⌊y⌋ then ⌊y⌋ + 1
  else if ⌊y⌋ % 2 = 0 then ⌊y⌋ else ⌊y⌋ + 1

namespace F32

/-- The exponent of the binary32 binade of `x`: `⌊log₂ |x|⌋`, not below `-126` (the
exponent of the subnormal numbers). -/
def exponent (x : ℚ) : ℤ := max (-126) (Int.log 2 |x|)

/-- The spacing of the binary32 numbers in the binade of `x` (24 bits of significand). -/
def ulp (x : ℚ) : ℚ := (2 : ℚ) ^ (exponent x - 23)

/-- The binary32 (`float`) value of the exact number `x`: the multiple of `ulp x` nearest
to `x`, ties to even.  It is the value of a `float` literal and of the result of a
`float` addition or subtraction with exact result `x`.  Overflow to infinity is left
out: the frame loop never leaves `[-0.2, 1.2]`. -/
def round (x : ℚ) : ℚ := roundEven (x / ulp x) * ulp x

end F32

/-- The smaller of two values, as `std::min(a, b)`: `b` when `b < a`, else `a`. -/
def stdMin {K : Type} [LinearOrder K] (a b : K) : K := if b < a then b else a

/-- The larger of two values, as `std::max(a, b)`: `b` when `a < b`, else `a`. -/
def stdMax {K : Type} [LinearOrder K] (a b : K) : K := if a < b then b else a

/-- The state the frame loop of `main` carries from one pass to the next: the accept
ratio (a `float`, held as the rational number it stands for), the number of frames
captured, the frame the reference descriptors were computed from, the accept ratios
handed to `matchAndDraw` so far, and whether the loop has been left. -/
structure FrameLoop where
  acceptRatio : ℚ
  frames : Nat
  refFrame : Nat
  matched : List ℚ
  quit : Bool

namespace FrameLoop

/-- The state on entry to `while(1)` (reached when the camera could be opened): one
frame captured for the reference descriptors, `acceptRatio = 0.5f` (`0.5` is a binary32
number). -/
def init : FrameLoop :=
  { acceptRatio := 1 / 2, frames := 1, refFrame := 0, matched := [], quit := false }

/-- One pass of the body of `while(1)` with `key` the value of `cv::waitKey(10)`
(`-1` when no key was pressed).  `acceptRatio + 0.1f` and `acceptRatio - 0.1f` are
`float` operations: the literal `0.1f` is `F32.round (1 / 10)` and the result is the
exact sum or difference rounded to binary32; `1.f` and `0.f` are exact. -/
def pass (s : FrameLoop) (key : Int) : FrameLoop :=
  let frame := s.frames
  let s := { s with frames := s.frames + 1 }
  let s :=
    if key = ('f'.toNat : Int) ∨ key = ('F'.toNat : Int) then
      { s with refFrame := frame }
    else if key = ('u'.toNat : Int) ∨ key = ('U'.toNat : Int) then
      { s with acceptRatio := stdMin (F32.round (s.acceptRatio + F32.round (1 / 10))) 1 }
    else if key = ('d'.toNat : Int) ∨ key = ('D'.toNat : Int) then
      { s with acceptRatio := stdMax (F32.round (s.acceptRatio - F32.round (1 / 10))) 0 }
    else if key = ('q'.toNat : Int) ∨ key = ('Q'.toNat : Int) then
      { s with quit := true }
    else s
  if s.quit then s else { s with matched := s.matched ++ [s.acceptRatio] }

/-- The loop `while(1)` over the key events `keys`, one per pass; it is left at the
first `q` or `Q`. -/
def run (s : FrameLoop) : List Int → FrameLoop
  | [] => s
  | key :: keys => if (s.pass key).quit then s.pass key else run (s.pass key) keys

end FrameLoop

/-! ## Vocabulary of the statements -/

/-- The pose an output entry of `addPoseVertex` shows, if it is one. -/
def Output.addedPose? {P : Type} : Output P → Option P
  | Output.addPose pose => some pose
  | _ => none

/-- The two endpoints of an edge. -/
def EdgeSE3.ends {K P : Type} (e : EdgeSE3 K P) : Nat × Nat := (e.id0, e.id1)

/-- The poses `setCirclePoseVertices` appends in `n` passes when the last pose is
`back`: each is the one before it composed with `relpose`. -/
def circlePoses {K P : Type} (L : PoseLib K P) (relpose : P) : P → Nat → List P
  | _, 0 => []
  | back, n + 1 => L.mul back relpose :: circlePoses L relpose (L.mul back relpose) n

/-- The relative poses of consecutive entries of a pose list: entry `k` is
`gt[k]⁻¹ ∘ gt[k+1]`. -/
def relPoses {K P : Type} (L : PoseLib K P) (gt : List P) : List P :=
  List.zipWith (fun a b => L.mul (L.inverse a) b) gt gt.tail

/-- The pose `p` lies on the circle of `setCirclePoseVertices` at angle `θ`, started at
`(c, 0, 0)` with radius `ρ`: its rotation is the rotation by `θ` about the z axis, as a
quaternion of non-negative `w`, its translation `(c + ρ sin θ, ρ - ρ cos θ, 0)`. -/
def OnCircle (c ρ : ℝ) (p : SE3Quat ℝ) (θ : ℝ) : Prop :=
  ∃ σ : ℝ, (σ = 1 ∨ σ = -1) ∧
    p.r = ⟨0, 0, σ * Real.sin (θ / 2), σ * Real.cos (θ / 2)⟩ ∧
    0 ≤ σ * Real.cos (θ / 2) ∧
    p.t = ⟨c + ρ * Real.sin θ, ρ - ρ * Real.cos θ, 0⟩

namespace SE3LoopConstructor

variable {K P : Type}

/-- The bookkeeping invariant of the constructor: the id counter, the vertex ids, the
poses printed by `addPoseVertex` and the estimates all agree with `gt_poses`. -/
structure Dense (s : SE3LoopConstructor K P) : Prop where
  next : s.vertex_id = s.gt_poses.length
  ids : s.optimizer.vertices.map (fun v => v.id) = List.range s.gt_poses.length
  logged : s.cout.filterMap Output.addedPose? = s.gt_poses
  est : ∀ v ∈ s.optimizer.vertices, ∀ e, v.estimate = some e → s.gt_poses[v.id]? = some e

/-- What the edge-adding methods leave alone: everything but the edges, the output
entries that are not poses of `addPoseVertex`, and the draw count. -/
structure Frame (s s' : SE3LoopConstructor K P) : Prop where
  gt_poses : s'.gt_poses = s.gt_poses
  config : s'.config = s.config
  vertex_id : s'.vertex_id = s.vertex_id
  vertices : s'.optimizer.vertices = s.optimizer.vertices
  find : ∀ k, s'.optimizer.find k = s.optimizer.find k
  logged : s'.cout.filterMap Output.addedPose? = s.cout.filterMap Output.addedPose?

end SE3LoopConstructor

namespace FrameLoop

/-- The accept ratio and every ratio handed to `matchAndDraw` lie in `[0, 1]`. -/
def InRange (s : FrameLoop) : Prop :=
  (0 ≤ s.acceptRatio ∧ s.acceptRatio ≤ 1) ∧ ∀ r ∈ s.matched, 0 ≤ r ∧ r ≤ 1

end FrameLoop

/-! ## Facts about the optimizer graph -/

namespace SparseOptimizer

variable {K P : Type}

theorem find?_id_of_mem (vs : List (VertexSE3 P)) (k : Nat)
    (h : k ∈ vs.map (fun v => v.id)) :
    ∃ v, vs.find? (fun v => v.id == k) = some v ∧ v.id = k := by
  induction vs with
  | nil => simp at h
  | cons a as ih =>
    by_cases ha : a.id = k
    · exact ⟨a, by simp [List.find?_cons, ha], ha⟩
    · have hk : k ∈ as.map (fun v => v.id) := by
        simp only [List.map_cons, List.mem_cons] at h
        rcases h with h | h
        · exact absurd h.symm ha
        · exact h
      obtain ⟨v, hv, hid⟩ := ih hk
      exact ⟨v, by simp [List.find?_cons, ha, hv], hid⟩

theorem find_of_mem_ids (o : SparseOptimizer K P) (k : Nat)
    (h : k ∈ o.vertices.map (fun v => v.id)) : ∃ v, o.find k = some v ∧ v.id = k :=
  find?_id_of_mem o.vertices k h

theorem find_eq_none (o : SparseOptimizer K P) (k : Nat)
    (h : k ∉ o.vertices.map (fun v => v.id)) : o.find k = none := by
  unfold find
  rw [List.find?_eq_none]
  intro v hv hk
  apply h
  simp only [List.mem_map]
  exact ⟨v, hv, by simpa using hk⟩

theorem addVertex_fresh (o : SparseOptimizer K P) (v : VertexSE3 P)
    (h : o.find v.id = none) : o.addVertex v = { o with vertices := o.vertices ++ [v] } := by
  simp [addVertex, h]

theorem find_id (o : SparseOptimizer K P) (k : Nat) (v : VertexSE3 P)
    (h : o.find k = some v) : v.id = k := by
  have := List.find?_some h
  simpa using this

theorem find_isSome_of_mem_ids (o : SparseOptimizer K P) (k : Nat)
    (h : k ∈ o.vertices.map (fun v => v.id)) : (o.find k).isSome = true := by
  obtain ⟨v, hv, _⟩ := o.find_of_mem_ids k h
  rw [hv]; rfl

theorem find_range (o : SparseOptimizer K P) (n k : Nat)
    (h : o.vertices.map (fun v => v.id) = List.range n) (hk : k < n) :
    ∃ v, o.find k = some v ∧ v.id = k :=
  o.find_of_mem_ids k (by rw [h]; exact List.mem_range.mpr hk)

end SparseOptimizer

namespace SE3LoopConstructor

variable {K P : Type}

@[simp] theorem addPoseVertex_gt_poses (s : SE3LoopConstructor K P) (pose : P) (f : Bool) :
    (s.addPoseVertex pose f).gt_poses = s.gt_poses ++ [pose] := rfl

@[simp] theorem addPoseVertex_vertex_id (s : SE3LoopConstructor K P) (pose : P) (f : Bool) :
    (s.addPoseVertex pose f).vertex_id = s.vertex_id + 1 := rfl

@[simp] theorem addPoseVertex_config (s : SE3LoopConstructor K P) (pose : P) (f : Bool) :
    (s.addPoseVertex pose f).config = s.config := rfl

@[simp] theorem addPoseVertex_cout (s : SE3LoopConstructor K P) (pose : P) (f : Bool) :
    (s.addPoseVertex pose f).cout = s.cout ++ [Output.addPose pose] := rfl

@[simp] theorem addPoseVertex_rand_calls (s : SE3LoopConstructor K P) (pose : P) (f : Bool) :
    (s.addPoseVertex pose f).rand_calls = s.rand_calls := rfl

@[simp] theorem addPoseVertex_traj_radius (s : SE3LoopConstructor K P) (pose : P) (f : Bool) :
    (s.addPoseVertex pose f).traj_radius = s.traj_radius := rfl

@[simp] theorem addPoseVertex_center (s : SE3LoopConstructor K P) (pose : P) (f : Bool) :
    (s.addPoseVertex pose f).center = s.center := rfl

theorem addPoseVertex_optimizer (s : SE3LoopConstructor K P) (pose : P) (f : Bool) :
    (s.addPoseVertex pose f).optimizer =
      s.optimizer.addVertex
        { id := s.vertex_id
          estimate := if f || s.config.init_vtx then some pose else none
          fixed := f } := rfl

theorem Dense.addPoseVertex {s : SE3LoopConstructor K P} (h : s.Dense) (pose : P) (f : Bool) :
    (s.addPoseVertex pose f).Dense ∧
    (s.addPoseVertex pose f).optimizer.vertices = s.optimizer.vertices ++
      [{ id := s.gt_poses.length
         estimate := if f || s.config.init_vtx then some pose else none
         fixed := f }] ∧
    (s.addPoseVertex pose f).optimizer.edges = s.optimizer.edges := by
  have hfresh : s.optimizer.find s.vertex_id = none := by
    apply SparseOptimizer.find_eq_none
    rw [h.ids, h.next]
    simp
  have hopt := addPoseVertex_optimizer s pose f
  rw [SparseOptimizer.addVertex_fresh _ _ hfresh] at hopt
  refine ⟨⟨?_, ?_, ?_, ?_⟩, ?_, ?_⟩
  · simp [h.next]
  · rw [hopt]
    simp [h.ids, h.next, List.range_succ]
  · simp [h.logged, List.filterMap_append, Output.addedPose?]
  · intro v hv e he
    rw [hopt] at hv
    simp only [List.mem_append, List.mem_singleton] at hv
    rcases hv with hv | hv
    · have hlt : v.id < s.gt_poses.length := by
        have : v.id ∈ s.optimizer.vertices.map (fun v => v.id) := List.mem_map.mpr ⟨v, hv, rfl⟩
        rw [h.ids] at this
        exact List.mem_range.mp this
      rw [addPoseVertex_gt_poses, List.getElem?_append_left hlt]
      exact h.est v hv e he
    · subst hv
      simp only [h.next, addPoseVertex_gt_poses] at he ⊢
      rw [List.getElem?_append_right (le_refl _)]
      simp only [Nat.sub_self, List.getElem?_cons_zero]
      split at he
      · exact he
      · simp at he
  · rw [hopt, h.next]
  · rw [hopt]

end SE3LoopConstructor

/-! ## Facts about the methods of the constructor -/

namespace SE3LoopConstructor

variable {K P : Type}

theorem Frame.refl (s : SE3LoopConstructor K P) : Frame s s :=
  ⟨rfl, rfl, rfl, rfl, fun _ => rfl, rfl⟩

theorem Frame.trans {a b c : SE3LoopConstructor K P} (h1 : Frame a b) (h2 : Frame b c) :
    Frame a c :=
  ⟨h2.gt_poses.trans h1.gt_poses, h2.config.trans h1.config, h2.vertex_id.trans h1.vertex_id,
    h2.vertices.trans h1.vertices, fun k => (h2.find k).trans (h1.find k),
    h2.logged.trans h1.logged⟩

theorem Frame.dense {s s' : SE3LoopConstructor K P} (h : Frame s s') (hd : s.Dense) :
    s'.Dense := by
  refine ⟨?_, ?_, ?_, ?_⟩
  · rw [h.vertex_id, h.gt_poses]; exact hd.next
  · rw [h.vertices, h.gt_poses]; exact hd.ids
  · rw [h.logged, h.gt_poses]; exact hd.logged
  · rw [h.vertices, h.gt_poses]; exact hd.est

theorem setInitPoseVertices_spec [Field K] (L : PoseLib K P) (s : SE3LoopConstructor K P)
    (h : s.Dense) :
    (s.setInitPoseVertices L).Dense ∧
    (s.setInitPoseVertices L).gt_poses = s.gt_poses ++
      [L.ofQuatTran Quaterniond.Identity ⟨0, 0, 0⟩,
       L.ofQuatTran Quaterniond.Identity ⟨s.center.x, 0, 0⟩] ∧
    (s.setInitPoseVertices L).optimizer.edges = s.optimizer.edges ∧
    (s.setInitPoseVertices L).config = s.config ∧
    (s.setInitPoseVertices L).traj_radius = s.traj_radius := by
  have h1 := h.addPoseVertex (L.ofQuatTran Quaterniond.Identity ⟨0, 0, 0⟩) true
  have h2 := h1.1.addPoseVertex (L.ofQuatTran Quaterniond.Identity ⟨s.center.x, 0, 0⟩) true
  refine ⟨h2.1, ?_, ?_, rfl, rfl⟩
  · simp [setInitPoseVertices, addPoseVertexQuatTran]
  · exact h2.2.2.trans h1.2.2

theorem circle_fold (L : PoseLib K P) (relpose : P) (l : List Nat) :
    ∀ (s : SE3LoopConstructor K P) (back : P), s.Dense → s.gt_poses.getLast? = some back →
    ∃ s', l.foldlM (fun self _ => circleStep L relpose self) s = some s' ∧ s'.Dense ∧
      s'.gt_poses = s.gt_poses ++ circlePoses L relpose back l.length ∧
      s'.optimizer.edges = s.optimizer.edges ∧ s'.config = s.config := by
  induction l with
  | nil =>
    intro s back hd _
    exact ⟨s, rfl, hd, by simp [circlePoses], rfl, rfl⟩
  | cons a as ih =>
    intro s back hd hback
    have hstep : circleStep L relpose s = some (s.addPoseVertex (L.mul back relpose) false) := by
      simp [circleStep, hback]
    have h1 := hd.addPoseVertex (L.mul back relpose) false
    obtain ⟨s', hs', hd', hgt, he, hc⟩ :=
      ih (s.addPoseVertex (L.mul back relpose) false) (L.mul back relpose) h1.1 (by simp)
    refine ⟨s', ?_, hd', ?_, ?_, ?_⟩
    · simp [List.foldlM_cons, hstep, hs']
    · simp [hgt, circlePoses]
    · rw [he]; exact h1.2.2
    · rw [hc]; rfl

theorem setCirclePoseVertices_spec [Field K] (M : MathEnv K) (L : PoseLib K P)
    (s : SE3LoopConstructor K P) (back : P) (hd : s.Dense)
    (hback : s.gt_poses.getLast? = some back) :
    ∃ s', s.setCirclePoseVertices M L = some s' ∧ s'.Dense ∧
      s'.gt_poses = s.gt_poses ++
        circlePoses L (circleRelpose M L s.traj_radius) back CIRCLE_NODES ∧
      s'.optimizer.edges = s.optimizer.edges ∧ s'.config = s.config := by
  have h := circle_fold L (circleRelpose M L s.traj_radius) (List.range CIRCLE_NODES) s back
    hd hback
  simpa [setCirclePoseVertices] using h

theorem addNoisePoseMeasurement_frame [Field K] (L : PoseLib K P) (random : Nat → K)
    (s : SE3LoopConstructor K P) (srcpose : P) :
    Frame s (addNoisePoseMeasurement L random s srcpose).2 ∧
    (addNoisePoseMeasurement L random s srcpose).2.optimizer.edges = s.optimizer.edges := by
  refine ⟨⟨rfl, rfl, rfl, rfl, fun _ => rfl, ?_⟩, rfl⟩
  simp [addNoisePoseMeasurement, List.filterMap_append, Output.addedPose?]

theorem addEdgePosePose_spec [Field K] (s : SE3LoopConstructor K P) (id0 id1 : Nat)
    (relpose : P) (h0 : (s.optimizer.find id0).isSome = true)
    (h1 : (s.optimizer.find id1).isSome = true) :
    ∃ s', s.addEdgePosePose id0 id1 relpose = some s' ∧ Frame s s' ∧
      s'.optimizer.edges = s.optimizer.edges ++
        [{ id0 := id0, id1 := id1, measurement := relpose,
           information := scaledIdentity 6 10 }] := by
  obtain ⟨v0, hv0⟩ := Option.isSome_iff_exists.mp h0
  obtain ⟨v1, hv1⟩ := Option.isSome_iff_exists.mp h1
  have hid0 := s.optimizer.find_id id0 v0 hv0
  have hid1 := s.optimizer.find_id id1 v1 hv1
  have he : s.addEdgePosePose id0 id1 relpose = some
      { s with
        cout := s.cout ++ [Output.addEdge id0 id1 relpose]
        optimizer := s.optimizer.addEdge
          { id0 := v0.id, id1 := v1.id, measurement := relpose,
            information := scaledIdentity 6 10 } } := by
    simp only [addEdgePosePose, hv0, hv1]
  refine ⟨_, he, ⟨rfl, rfl, rfl, rfl, fun _ => rfl, ?_⟩, ?_⟩
  · simp [List.filterMap_append, Output.addedPose?]
  · simp [SparseOptimizer.addEdge, hid0, hid1]

end SE3LoopConstructor

namespace SE3LoopConstructor

variable {K P : Type}

theorem noised_frame [Field K] (L : PoseLib K P) (random : Nat → K)
    (s : SE3LoopConstructor K P) (relpose : P) :
    Frame s (if s.config.edge_noise then addNoisePoseMeasurement L random s relpose
      else (relpose, s)).2 ∧
    (if s.config.edge_noise then addNoisePoseMeasurement L random s relpose
      else (relpose, s)).2.optimizer.edges = s.optimizer.edges ∧
    (s.config.edge_noise = false →
      (if s.config.edge_noise then addNoisePoseMeasurement L random s relpose
        else (relpose, s)).1 = relpose) := by
  cases hn : s.config.edge_noise
  · simpa using Frame.refl s
  · have h := addNoisePoseMeasurement_frame L random s relpose
    simpa using h

theorem chainStep_spec [Field K] (L : PoseLib K P) (random : Nat → K)
    (s : SE3LoopConstructor K P) (i : Nat) (prev cur : P)
    (hprev : s.gt_poses[i - 1]? = some prev) (hcur : s.gt_poses[i]? = some cur)
    (h0 : (s.optimizer.find (i - 1)).isSome = true)
    (h1 : (s.optimizer.find i).isSome = true) :
    ∃ s' m, chainStep L random s i = some s' ∧ Frame s s' ∧
      s'.optimizer.edges = s.optimizer.edges ++
        [{ id0 := i - 1, id1 := i, measurement := m, information := scaledIdentity 6 10 }] ∧
      (s.config.edge_noise = false → m = L.mul (L.inverse prev) cur) := by
  obtain ⟨hf, he, hm⟩ := noised_frame L random s (L.mul (L.inverse prev) cur)
  generalize hq : (if s.config.edge_noise then
      addNoisePoseMeasurement L random s (L.mul (L.inverse prev) cur)
    else (L.mul (L.inverse prev) cur, s)) = q at hf he hm
  obtain ⟨s', hs', hf', he'⟩ := addEdgePosePose_spec q.2 (i - 1) i q.1
    (by rw [hf.find]; exact h0) (by rw [hf.find]; exact h1)
  refine ⟨s', q.1, ?_, hf.trans hf', ?_, hm⟩
  · simp only [chainStep, hprev, hcur, hq]
    exact hs'
  · rw [he', he]

theorem relPoses_getElem? (L : PoseLib K P) (gt : List P) (k : Nat) (a b : P)
    (ha : gt[k]? = some a) (hb : gt[k + 1]? = some b) :
    (relPoses L gt)[k]? = some (L.mul (L.inverse a) b) := by
  simp [relPoses, List.getElem?_zipWith, ha, hb]

theorem relPoses_length (L : PoseLib K P) (gt : List P) :
    (relPoses L gt).length = gt.length - 1 := by
  simp [relPoses]

theorem chain_fold [Field K] (L : PoseLib K P) (random : Nat → K) (m : Nat) :
    ∀ s : SE3LoopConstructor K P, m + 1 ≤ s.gt_poses.length →
    (∀ k, k < s.gt_poses.length → (s.optimizer.find k).isSome = true) →
    ∃ s' E, (List.range' 1 m).foldlM (chainStep L random) s = some s' ∧ Frame s s' ∧
      s'.optimizer.edges = s.optimizer.edges ++ E ∧
      E.map EdgeSE3.ends = (List.range m).map (fun k => (k, k + 1)) ∧
      (s.config.edge_noise = false →
        E.map (fun e => e.measurement) = (relPoses L s.gt_poses).take m) := by
  induction m with
  | zero =>
    intro s _ _
    exact ⟨s, [], rfl, Frame.refl s, by simp, by simp, by simp⟩
  | succ m ih =>
    intro s hm hids
    obtain ⟨s1, E1, hs1, hf1, he1, hends1, hmeas1⟩ := ih s (by omega) hids
    have hlt0 : m < s.gt_poses.length := by omega
    have hlt1 : m + 1 < s.gt_poses.length := by omega
    have hprev : s1.gt_poses[1 + m - 1]? = some s.gt_poses[m] := by
      rw [hf1.gt_poses]; simp [List.getElem?_eq_getElem hlt0]
    have hcur : s1.gt_poses[1 + m]? = some s.gt_poses[m + 1] := by
      rw [hf1.gt_poses, Nat.add_comm 1 m]; exact List.getElem?_eq_getElem hlt1
    obtain ⟨s2, meas, hs2, hf2, he2, hmeas2⟩ := chainStep_spec L random s1 (1 + m) _ _ hprev hcur
      (by rw [hf1.find]; exact hids _ (by omega))
      (by rw [hf1.find]; exact hids _ (by omega))
    refine ⟨s2, E1 ++ [EdgeSE3.mk (1 + m - 1) (1 + m) meas (scaledIdentity 6 10)], ?_,
      hf1.trans hf2, ?_, ?_, ?_⟩
    · rw [List.range'_1_concat, List.foldlM_append, hs1]
      simp [hs2]
    · rw [he2, he1, List.append_assoc]
    · simp [List.range_succ, hends1, EdgeSE3.ends, Nat.add_comm 1 m]
    · intro hn
      have hrel := relPoses_getElem? L s.gt_poses m _ _
        (List.getElem?_eq_getElem hlt0) (List.getElem?_eq_getElem hlt1)
      rw [List.take_succ, hrel, List.map_append, hmeas1 hn,
        hmeas2 (by rw [hf1.config]; exact hn)]
      simp

theorem setEdgesBtwPoses_spec [Field K] (L : PoseLib K P) (random : Nat → K)
    (s : SE3LoopConstructor K P) (first back : P) (hfirst : s.gt_poses[1]? = some first)
    (hback : s.gt_poses.getLast? = some back)
    (hids : ∀ k, k < s.gt_poses.length → (s.optimizer.find k).isSome = true) :
    ∃ s' E loop, s.setEdgesBtwPoses L random = some s' ∧ Frame s s' ∧
      s'.optimizer.edges = s.optimizer.edges ++ E ++ [loop] ∧
      E.map EdgeSE3.ends = (List.range (s.gt_poses.length - 1)).map (fun k => (k, k + 1)) ∧
      loop.ends = (1, s.gt_poses.length - 1) ∧
      (s.config.edge_noise = false →
        E.map (fun e => e.measurement) = relPoses L s.gt_poses ∧
        loop.measurement = L.mul (L.inverse first) back) := by
  have hlen : 2 ≤ s.gt_poses.length := by
    by_contra hc
    rw [List.getElem?_eq_none (by omega)] at hfirst
    exact absurd hfirst (by simp)
  obtain ⟨s1, E, hs1, hf1, he1, hends, hmeas⟩ :=
    chain_fold L random (s.gt_poses.length - 1) s (by omega) hids
  let s1' : SE3LoopConstructor K P :=
    { s1 with cout := s1.cout ++ [Output.relposeLast (L.mul (L.inverse first) back)] }
  have hf1' : Frame s1 s1' :=
    ⟨rfl, rfl, rfl, rfl, fun _ => rfl,
      by simp [s1', List.filterMap_append, Output.addedPose?]⟩
  obtain ⟨hf2, he2, hm2⟩ := noised_frame L random s1' (L.mul (L.inverse first) back)
  generalize hq : (if s1'.config.edge_noise then
      addNoisePoseMeasurement L random s1' (L.mul (L.inverse first) back)
    else (L.mul (L.inverse first) back, s1')) = q at hf2 he2 hm2
  have hfq : Frame s q.2 := (hf1.trans hf1').trans hf2
  obtain ⟨s3, hs3, hf3, he3⟩ := addEdgePosePose_spec q.2 1 (q.2.gt_poses.length - 1) q.1
    (by rw [hfq.find]; exact hids _ (by omega))
    (by rw [hfq.find, hfq.gt_poses]; exact hids _ (by omega))
  have hfirst1 : s1.gt_poses[1]? = some first := by rw [hf1.gt_poses]; exact hfirst
  have hback1 : s1.gt_poses.getLast? = some back := by rw [hf1.gt_poses]; exact hback
  refine ⟨s3, E, EdgeSE3.mk 1 (q.2.gt_poses.length - 1) q.1 (scaledIdentity 6 10), ?_,
    hfq.trans hf3, ?_, hends, ?_, ?_⟩
  · simp only [setEdgesBtwPoses, hs1, Option.bind_eq_bind, Option.some_bind, hfirst1, hback1]
    rw [← hq] at hs3
    exact hs3
  · rw [he3, he2]
    show s1.optimizer.edges ++ _ = _
    rw [he1]
  · simp [EdgeSE3.ends, hfq.gt_poses]
  · intro hn
    refine ⟨?_, ?_⟩
    · rw [hmeas hn, List.take_of_length_le]
      rw [relPoses_length]
    · exact hm2 (by rw [(hf1.trans hf1').config]; exact hn)

end SE3LoopConstructor

namespace SE3LoopConstructor

variable {K P : Type}

theorem new_dense [Field K] (config : G2oConfig K) : (new config : SE3LoopConstructor K P).Dense :=
  ⟨rfl, rfl, rfl, by intro v hv; simp [new, SparseOptimizer.empty] at hv⟩

theorem circlePoses_length (L : PoseLib K P) (relpose : P) (n : Nat) :
    ∀ back : P, (circlePoses L relpose back n).length = n := by
  induction n with
  | zero => intro back; rfl
  | succ n ih => intro back; simp [circlePoses, ih]

/-- The ground-truth list of `construct` on a new constructor: the two anchor poses,
then the ten poses along the circle. -/
theorem construct_spec [Field K] (M : MathEnv K) (L : PoseLib K P) (random : Nat → K)
    (config0 config : G2oConfig K) :
    ∃ s E loop, (new config0).construct M L random SparseOptimizer.empty config = some s ∧
      s.Dense ∧ s.config = config ∧
      s.gt_poses =
        [L.ofQuatTran Quaterniond.Identity ⟨0, 0, 0⟩, L.ofQuatTran Quaterniond.Identity ⟨1, 0, 0⟩]
          ++ circlePoses L (circleRelpose M L 2)
            (L.ofQuatTran Quaterniond.Identity ⟨1, 0, 0⟩) CIRCLE_NODES ∧
      s.optimizer.edges = E ++ [loop] ∧
      E.map EdgeSE3.ends = (List.range 11).map (fun k => (k, k + 1)) ∧
      loop.ends = (1, 11) ∧
      (config.edge_noise = false →
        E.map (fun e => e.measurement) = relPoses L s.gt_poses ∧
        ∀ back, s.gt_poses.getLast? = some back →
          loop.measurement = L.mul (L.inverse (L.ofQuatTran Quaterniond.Identity ⟨1, 0, 0⟩)) back) := by
  let s0 : SE3LoopConstructor K P :=
    { (new config0 : SE3LoopConstructor K P) with
      optimizer := SparseOptimizer.empty, config := config }
  have hd0 : s0.Dense := ⟨rfl, rfl, rfl, by intro v hv; simp [s0, SparseOptimizer.empty] at hv⟩
  obtain ⟨hd1, hgt1, he1, hc1, hr1⟩ := setInitPoseVertices_spec L s0 hd0
  obtain ⟨s2, hs2, hd2, hgt2, he2, hc2⟩ := setCirclePoseVertices_spec M L
    (s0.setInitPoseVertices L) (L.ofQuatTran Quaterniond.Identity ⟨1, 0, 0⟩) hd1
    (by rw [hgt1]; simp [s0, new])
  have hgt2' : s2.gt_poses =
      [L.ofQuatTran Quaterniond.Identity ⟨0, 0, 0⟩, L.ofQuatTran Quaterniond.Identity ⟨1, 0, 0⟩]
        ++ circlePoses L (circleRelpose M L 2)
          (L.ofQuatTran Quaterniond.Identity ⟨1, 0, 0⟩) CIRCLE_NODES := by
    rw [hgt2, hgt1, hr1]
    simp [s0, new]
  have hlen : s2.gt_poses.length = 12 := by
    rw [hgt2']; simp [circlePoses_length, CIRCLE_NODES]
  have hfirst : s2.gt_poses[1]? = some (L.ofQuatTran Quaterniond.Identity ⟨1, 0, 0⟩) := by
    rw [hgt2']; rfl
  obtain ⟨back, hback⟩ : ∃ back, s2.gt_poses.getLast? = some back := by
    rw [List.getLast?_eq_getElem?, hlen]
    exact ⟨s2.gt_poses[11], List.getElem?_eq_getElem (by omega)⟩
  obtain ⟨s3, E, loop, hs3, hf3, he3, hends, hloop, hmeas⟩ :=
    setEdgesBtwPoses_spec L random s2 _ back hfirst hback
      (fun k hk => s2.optimizer.find_isSome_of_mem_ids k
        (by rw [hd2.ids]; exact List.mem_range.mpr hk))
  have hcfg : s2.config = config := by rw [hc2, hc1]
  refine ⟨s3, E, loop, ?_, hf3.dense hd2, ?_, ?_, ?_, ?_, ?_, ?_⟩
  · simp only [construct, Option.bind_eq_bind]
    show (s0.setInitPoseVertices L).setCirclePoseVertices M L >>= _ = _
    rw [hs2]
    exact hs3
  · rw [hf3.config, hcfg]
  · rw [hf3.gt_poses, hgt2']
  · rw [he3, he2, he1]
    simp [s0, SparseOptimizer.empty]
  · rw [hends, hlen]
  · rw [hloop, hlen]
  · intro hn
    obtain ⟨h1, h2⟩ := hmeas (by rw [hcfg]; exact hn)
    refine ⟨by rw [hf3.gt_poses]; exact h1, ?_⟩
    intro back' hback'
    rw [hf3.gt_poses, hback] at hback'
    cases hback'
    exact h2

end SE3LoopConstructor

/-! ## The circle over the reals -/

theorem normalizeRotation_planar (M : MathEnv ℝ) (hq : M.sqrt = Real.sqrt) (z w : ℝ)
    (t : Vector3d ℝ) (h : z * z + w * w = 1) :
    SE3Quat.normalizeRotation M ⟨⟨0, 0, z, w⟩, t⟩ =
      if w < 0 then ⟨⟨0, 0, -z, -w⟩, t⟩ else ⟨⟨0, 0, z, w⟩, t⟩ := by
  by_cases hw : w < 0
  · have h1 : (0 : ℝ) < 0 * 0 + 0 * 0 + z * z + w * w := by rw [zero_mul, zero_add, zero_add, h]; exact one_pos
    have h2 : Real.sqrt (0 * 0 + 0 * 0 + z * z + w * w) = 1 := by
      rw [zero_mul, zero_add, zero_add, h]; exact Real.sqrt_one
    simp [SE3Quat.normalizeRotation, Quaterniond.normalize, Quaterniond.squaredNorm, hw, hq, h, h1, h2]
  · have h1 : (0 : ℝ) < 0 * 0 + 0 * 0 + z * z + w * w := by rw [zero_mul, zero_add, zero_add, h]; exact one_pos
    have h2 : Real.sqrt (0 * 0 + 0 * 0 + z * z + w * w) = 1 := by
      rw [zero_mul, zero_add, zero_add, h]; exact Real.sqrt_one
    simp [SE3Quat.normalizeRotation, Quaterniond.normalize, Quaterniond.squaredNorm, hw, hq, h, h1, h2]

/-- The step `relpose` of `setCirclePoseVertices` for a step angle `δ` and radius `ρ`:
the constructor of the pose leaves the quaternion of the rotation as it is. -/
theorem ofQuatTran_step (M : MathEnv ℝ) (hs : M.sin = Real.sin) (hc : M.cos = Real.cos)
    (hq : M.sqrt = Real.sqrt) (ρ δ : ℝ) (hw : 0 ≤ Real.cos (δ / 2)) :
    SE3Quat.ofQuatTran M (Quaterniond.ofAngleAxis M δ ⟨0, 0, 1⟩)
      ⟨ρ * M.sin δ, ρ - ρ * M.cos δ, 0⟩ =
      ⟨⟨0, 0, Real.sin (δ / 2), Real.cos (δ / 2)⟩,
        ⟨ρ * Real.sin δ, ρ - ρ * Real.cos δ, 0⟩⟩ := by
  have h1 : Real.sin (δ / 2) * Real.sin (δ / 2) + Real.cos (δ / 2) * Real.cos (δ / 2) = 1 := by
    have := Real.sin_sq_add_cos_sq (δ / 2); nlinarith
  have h2 := normalizeRotation_planar M hq (Real.sin (δ / 2)) (Real.cos (δ / 2))
    ⟨ρ * Real.sin δ, ρ - ρ * Real.cos δ, 0⟩ h1
  rw [if_neg (not_lt.mpr hw)] at h2
  have h3 : (1 / 2 : ℝ) * δ = δ / 2 := by ring
  simp only [SE3Quat.ofQuatTran, Quaterniond.ofAngleAxis, hs, hc, h3, mul_zero, mul_one]
  exact h2

/-- One step along the circle: composing a pose on the circle at angle `θ` with the
step gives the pose on the circle at angle `θ + δ`. -/
theorem circleStep_pose (M : MathEnv ℝ) (hs : M.sin = Real.sin) (hc : M.cos = Real.cos)
    (hq : M.sqrt = Real.sqrt) (c ρ δ θ : ℝ) (p : SE3Quat ℝ) (h : OnCircle c ρ p θ)
    (hw : 0 ≤ Real.cos (δ / 2)) :
    OnCircle c ρ
      (SE3Quat.mul M p
        (SE3Quat.ofQuatTran M (Quaterniond.ofAngleAxis M δ ⟨0, 0, 1⟩)
          ⟨ρ * M.sin δ, ρ - ρ * M.cos δ, 0⟩)) (θ + δ) := by
  obtain ⟨σ, hσ, hr, _, ht⟩ := h
  have hσ2 : σ * σ = 1 := by rcases hσ with h | h <;> rw [h] <;> norm_num
  have hrel := ofQuatTran_step M hs hc hq ρ δ hw
  rw [hrel]
  have hS := Real.sin_sq_add_cos_sq (θ / 2)
  have hD := Real.sin_sq_add_cos_sq (δ / 2)
  have hsum : (θ + δ) / 2 = θ / 2 + δ / 2 := by ring
  have hsin : Real.sin ((θ + δ) / 2) =
      Real.sin (θ / 2) * Real.cos (δ / 2) + Real.cos (θ / 2) * Real.sin (δ / 2) := by
    rw [hsum, Real.sin_add]
  have hcos : Real.cos ((θ + δ) / 2) =
      Real.cos (θ / 2) * Real.cos (δ / 2) - Real.sin (θ / 2) * Real.sin (δ / 2) := by
    rw [hsum, Real.cos_add]
  have hθs : Real.sin θ = 2 * Real.sin (θ / 2) * Real.cos (θ / 2) := by
    rw [← Real.sin_two_mul]; congr 1; ring
  have hθc : Real.cos θ = 1 - 2 * (Real.sin (θ / 2) * Real.sin (θ / 2)) := by
    have : Real.cos θ = Real.cos (2 * (θ / 2)) := by congr 1; ring
    rw [this, Real.cos_two_mul]; nlinarith
  have hmul : SE3Quat.mul M p
      ⟨⟨0, 0, Real.sin (δ / 2), Real.cos (δ / 2)⟩, ⟨ρ * Real.sin δ, ρ - ρ * Real.cos δ, 0⟩⟩ =
      SE3Quat.normalizeRotation M
        ⟨⟨0, 0, σ * Real.sin ((θ + δ) / 2), σ * Real.cos ((θ + δ) / 2)⟩,
          ⟨c + ρ * Real.sin (θ + δ), ρ - ρ * Real.cos (θ + δ), 0⟩⟩ := by
    cases p with
    | mk r t =>
      simp only at hr ht
      subst hr ht
      simp only [SE3Quat.mul, Quaterniond.mul, Quaterniond.transformVector, Quaterniond.vec,
        Vector3d.cross, Vector3d.add, Vector3d.scale]
      refine congrArg (SE3Quat.normalizeRotation M) ?_
      rw [SE3Quat.mk.injEq, Quaterniond.mk.injEq, Vector3d.mk.injEq]
      refine ⟨⟨?_, ?_, ?_, ?_⟩, ?_, ?_, ?_⟩
      · ring
      · ring
      · rw [hsin]; ring
      · rw [hcos]; ring
      · rw [Real.sin_add, hθs, hθc]
        linear_combination (-(2 * (ρ - ρ * Real.cos δ) * Real.sin (θ / 2) * Real.cos (θ / 2)
            + 2 * (ρ * Real.sin δ) * Real.sin (θ / 2) * Real.sin (θ / 2))) * hσ2
      · rw [Real.cos_add, hθs, hθc]
        linear_combination (-(2 * (ρ - ρ * Real.cos δ) * Real.sin (θ / 2) * Real.sin (θ / 2)
            - 2 * (ρ * Real.sin δ) * Real.sin (θ / 2) * Real.cos (θ / 2))) * hσ2
      · ring
  rw [hmul]
  have hunit : σ * Real.sin ((θ + δ) / 2) * (σ * Real.sin ((θ + δ) / 2)) +
      σ * Real.cos ((θ + δ) / 2) * (σ * Real.cos ((θ + δ) / 2)) = 1 := by
    have := Real.sin_sq_add_cos_sq ((θ + δ) / 2)
    have e : σ * Real.sin ((θ + δ) / 2) * (σ * Real.sin ((θ + δ) / 2)) +
        σ * Real.cos ((θ + δ) / 2) * (σ * Real.cos ((θ + δ) / 2)) =
        (σ * σ) * (Real.sin ((θ + δ) / 2) ^ 2 + Real.cos ((θ + δ) / 2) ^ 2) := by ring
    rw [e, hσ2, this, mul_one]
  rw [normalizeRotation_planar M hq _ _ _ hunit]
  by_cases hneg : σ * Real.cos ((θ + δ) / 2) < 0
  · rw [if_pos hneg]
    refine ⟨-σ, ?_, ?_, ?_, rfl⟩
    · rcases hσ with h | h
      · right; rw [h]
      · left; rw [h]; norm_num
    · rw [Quaterniond.mk.injEq]
      exact ⟨rfl, rfl, by ring, by ring⟩
    · linarith
  · rw [if_neg hneg]
    exact ⟨σ, hσ, rfl, not_lt.mp hneg, rfl⟩

theorem circlePoses_onCircle (M : MathEnv ℝ) (hs : M.sin = Real.sin) (hc : M.cos = Real.cos)
    (hq : M.sqrt = Real.sqrt) (c ρ δ : ℝ) (hw : 0 ≤ Real.cos (δ / 2)) (n : Nat) :
    ∀ (back : SE3Quat ℝ) (θ : ℝ), OnCircle c ρ back θ →
    ∃ last, (back :: circlePoses (g2oLib M)
        (SE3Quat.ofQuatTran M (Quaterniond.ofAngleAxis M δ ⟨0, 0, 1⟩)
          ⟨ρ * M.sin δ, ρ - ρ * M.cos δ, 0⟩) back n).getLast? = some last ∧
      OnCircle c ρ last (θ + n * δ) := by
  induction n with
  | zero =>
    intro back θ h
    refine ⟨back, rfl, ?_⟩
    simpa using h
  | succ n ih =>
    intro back θ h
    obtain ⟨last, hlast, hon⟩ := ih _ _ (circleStep_pose M hs hc hq c ρ δ θ back h hw)
    refine ⟨last, ?_, ?_⟩
    · rw [circlePoses, List.getLast?_cons_cons]
      exact hlast
    · have e : θ + ((n + 1 : Nat) : ℝ) * δ = θ + δ + n * δ := by push_cast; ring
      rw [e]; exact hon

theorem foldl_onCircle (M : MathEnv ℝ) (hs : M.sin = Real.sin) (hc : M.cos = Real.cos)
    (hq : M.sqrt = Real.sqrt) (c ρ δ : ℝ) (hw : 0 ≤ Real.cos (δ / 2)) (n : Nat) :
    ∀ (acc : SE3Quat ℝ) (θ : ℝ), OnCircle c ρ acc θ →
    OnCircle c ρ
      ((List.replicate n (SE3Quat.ofQuatTran M (Quaterniond.ofAngleAxis M δ ⟨0, 0, 1⟩)
          ⟨ρ * M.sin δ, ρ - ρ * M.cos δ, 0⟩)).foldl (g2oLib M).mul acc) (θ + n * δ) := by
  induction n with
  | zero =>
    intro acc θ h
    simpa using h
  | succ n ih =>
    intro acc θ h
    have e : θ + ((n + 1 : Nat) : ℝ) * δ = θ + δ + n * δ := by push_cast; ring
    rw [e, List.replicate_succ, List.foldl_cons]
    exact ih _ _ (circleStep_pose M hs hc hq c ρ δ θ acc h hw)

theorem onCircle_zero (c ρ : ℝ) : OnCircle c ρ ⟨⟨0, 0, 0, 1⟩, ⟨c, 0, 0⟩⟩ 0 :=
  ⟨1, Or.inl rfl, by simp, by simp, by simp⟩

theorem onCircle_two_pi (c ρ : ℝ) (p : SE3Quat ℝ) (h : OnCircle c ρ p (2 * Real.pi)) :
    p = ⟨⟨0, 0, 0, 1⟩, ⟨c, 0, 0⟩⟩ := by
  obtain ⟨σ, hσ, hr, hw, ht⟩ := h
  have e : 2 * Real.pi / 2 = Real.pi := by ring
  rw [e, Real.sin_pi, Real.cos_pi] at hr
  rw [e, Real.cos_pi] at hw
  rw [Real.sin_two_pi, Real.cos_two_pi] at ht
  have hσ1 : σ = -1 := by
    rcases hσ with h | h
    · rw [h] at hw; norm_num at hw
    · exact h
  cases p with
  | mk r t =>
    simp only at hr ht
    rw [hr, ht, hσ1]
    norm_num

theorem ofQuatTran_identity (M : MathEnv ℝ) (hq : M.sqrt = Real.sqrt) (t : Vector3d ℝ) :
    SE3Quat.ofQuatTran M Quaterniond.Identity t = ⟨⟨0, 0, 0, 1⟩, t⟩ := by
  have h := normalizeRotation_planar M hq 0 1 t (by norm_num)
  rw [if_neg (by norm_num)] at h
  exact h

theorem inverse_mul_anchor (M : MathEnv ℝ) (hq : M.sqrt = Real.sqrt) (c : ℝ) :
    SE3Quat.mul M (SE3Quat.inverse ⟨⟨0, 0, 0, 1⟩, ⟨c, 0, 0⟩⟩) ⟨⟨0, 0, 0, 1⟩, ⟨c, 0, 0⟩⟩ =
      SE3Quat.Identity := by
  have h := normalizeRotation_planar M hq 0 1 ⟨0, 0, 0⟩ (by norm_num)
  rw [if_neg (by norm_num)] at h
  have e : SE3Quat.mul M (SE3Quat.inverse ⟨⟨0, 0, 0, 1⟩, ⟨c, 0, 0⟩⟩) ⟨⟨0, 0, 0, 1⟩, ⟨c, 0, 0⟩⟩ =
      SE3Quat.normalizeRotation M ⟨⟨0, 0, 0, 1⟩, ⟨0, 0, 0⟩⟩ := by
    simp [SE3Quat.mul, SE3Quat.inverse, SE3Quat.Identity, Quaterniond.mul,
      Quaterniond.conjugate, Quaterniond.transformVector, Quaterniond.vec, Vector3d.cross,
      Vector3d.add, Vector3d.scale]
  rw [e, h]
  rfl

/-- The relative pose of two poses on the circle, `δ` apart, is the step of the circle. -/
theorem rel_onCircle (M : MathEnv ℝ) (hq : M.sqrt = Real.sqrt) (c ρ θ δ : ℝ)
    (a b : SE3Quat ℝ) (ha : OnCircle c ρ a θ) (hb : OnCircle c ρ b (θ + δ))
    (hpos : 0 < Real.cos (δ / 2)) :
    SE3Quat.mul M (SE3Quat.inverse a) b =
      ⟨⟨0, 0, Real.sin (δ / 2), Real.cos (δ / 2)⟩,
        ⟨ρ * Real.sin δ, ρ - ρ * Real.cos δ, 0⟩⟩ := by
  obtain ⟨σ, hσ, hra, _, hta⟩ := ha
  obtain ⟨τ, hτ, hrb, _, htb⟩ := hb
  have hσ2 : σ * σ = 1 := by rcases hσ with h | h <;> rw [h] <;> norm_num
  have hS := Real.sin_sq_add_cos_sq (θ / 2)
  have hsum : (θ + δ) / 2 = θ / 2 + δ / 2 := by ring
  have hsin : Real.sin ((θ + δ) / 2) =
      Real.sin (θ / 2) * Real.cos (δ / 2) + Real.cos (θ / 2) * Real.sin (δ / 2) := by
    rw [hsum, Real.sin_add]
  have hcos : Real.cos ((θ + δ) / 2) =
      Real.cos (θ / 2) * Real.cos (δ / 2) - Real.sin (θ / 2) * Real.sin (δ / 2) := by
    rw [hsum, Real.cos_add]
  have hθs : Real.sin θ = 2 * Real.sin (θ / 2) * Real.cos (θ / 2) := by
    rw [← Real.sin_two_mul]; congr 1; ring
  have hθc : Real.cos θ = 1 - 2 * (Real.sin (θ / 2) * Real.sin (θ / 2)) := by
    have : Real.cos θ = Real.cos (2 * (θ / 2)) := by congr 1; ring
    rw [this, Real.cos_two_mul]; nlinarith
  have hmul : SE3Quat.mul M (SE3Quat.inverse a) b =
      SE3Quat.normalizeRotation M
        ⟨⟨0, 0, σ * τ * Real.sin (δ / 2), σ * τ * Real.cos (δ / 2)⟩,
          ⟨ρ * Real.sin δ, ρ - ρ * Real.cos δ, 0⟩⟩ := by
    cases a with
    | mk ra ta =>
      cases b with
      | mk rb tb =>
        simp only at hra hta hrb htb
        subst hra hta hrb htb
        simp only [SE3Quat.mul, SE3Quat.inverse, SE3Quat.Identity, Quaterniond.mul,
          Quaterniond.conjugate, Quaterniond.transformVector, Quaterniond.vec, Vector3d.cross,
          Vector3d.add, Vector3d.scale]
        refine congrArg (SE3Quat.normalizeRotation M) ?_
        rw [SE3Quat.mk.injEq, Quaterniond.mk.injEq, Vector3d.mk.injEq]
        refine ⟨⟨?_, ?_, ?_, ?_⟩, ?_, ?_, ?_⟩
        · ring
        · ring
        · rw [hsin, hcos]
          linear_combination (σ * τ * Real.sin (δ / 2)) * hS
        · rw [hsin, hcos]
          linear_combination (σ * τ * Real.cos (δ / 2)) * hS
        · rw [Real.sin_add, Real.cos_add, hθs, hθc]
          linear_combination
            (ρ * Real.sin δ * 4 * Real.sin (θ / 2) * Real.sin (θ / 2)) * hS +
            ((ρ * (2 * Real.sin (θ / 2) * Real.cos (θ / 2) * Real.cos δ
                + (1 - 2 * (Real.sin (θ / 2) * Real.sin (θ / 2))) * Real.sin δ)
                - ρ * (2 * Real.sin (θ / 2) * Real.cos (θ / 2)))
                * (-2 * (Real.sin (θ / 2) * Real.sin (θ / 2)))
              + 2 * Real.sin (θ / 2) * Real.cos (θ / 2)
                * (-ρ * ((1 - 2 * (Real.sin (θ / 2) * Real.sin (θ / 2))) * Real.cos δ
                    - 2 * Real.sin (θ / 2) * Real.cos (θ / 2) * Real.sin δ)
                  + ρ * (1 - 2 * (Real.sin (θ / 2) * Real.sin (θ / 2))))) * hσ2
        · rw [Real.sin_add, Real.cos_add, hθs, hθc]
          linear_combination
            (ρ * (1 - Real.cos δ) * 4 * Real.sin (θ / 2) * Real.sin (θ / 2)) * hS +
            ((-ρ * ((1 - 2 * (Real.sin (θ / 2) * Real.sin (θ / 2))) * Real.cos δ
                    - 2 * Real.sin (θ / 2) * Real.cos (θ / 2) * Real.sin δ)
                  + ρ * (1 - 2 * (Real.sin (θ / 2) * Real.sin (θ / 2))))
                * (-2 * (Real.sin (θ / 2) * Real.sin (θ / 2)))
              - 2 * Real.sin (θ / 2) * Real.cos (θ / 2)
                * (ρ * (2 * Real.sin (θ / 2) * Real.cos (θ / 2) * Real.cos δ
                    + (1 - 2 * (Real.sin (θ / 2) * Real.sin (θ / 2))) * Real.sin δ)
                  - ρ * (2 * Real.sin (θ / 2) * Real.cos (θ / 2)))) * hσ2
        · ring
  rw [hmul]
  have hστ : σ * τ = 1 ∨ σ * τ = -1 := by
    rcases hσ with h | h <;> rcases hτ with h' | h' <;> rw [h, h'] <;> norm_num
  have hD := Real.sin_sq_add_cos_sq (δ / 2)
  have hunit : σ * τ * Real.sin (δ / 2) * (σ * τ * Real.sin (δ / 2)) +
      σ * τ * Real.cos (δ / 2) * (σ * τ * Real.cos (δ / 2)) = 1 := by
    rcases hστ with h | h <;> rw [h] <;> nlinarith
  rw [normalizeRotation_planar M hq _ _ _ hunit]
  rcases hστ with h | h
  · rw [h, if_neg (by rw [one_mul]; exact not_lt.mpr (le_of_lt hpos))]
    simp
  · rw [h, if_pos (by linarith)]
    simp

theorem relPoses_circle (M : MathEnv ℝ) (hs : M.sin = Real.sin) (hc : M.cos = Real.cos)
    (hq : M.sqrt = Real.sqrt) (c ρ δ : ℝ) (hpos : 0 < Real.cos (δ / 2)) (n : Nat) :
    ∀ (back : SE3Quat ℝ) (θ : ℝ), OnCircle c ρ back θ →
    relPoses (g2oLib M) (back :: circlePoses (g2oLib M)
        (SE3Quat.ofQuatTran M (Quaterniond.ofAngleAxis M δ ⟨0, 0, 1⟩)
          ⟨ρ * M.sin δ, ρ - ρ * M.cos δ, 0⟩) back n) =
      List.replicate n ⟨⟨0, 0, Real.sin (δ / 2), Real.cos (δ / 2)⟩,
        ⟨ρ * Real.sin δ, ρ - ρ * Real.cos δ, 0⟩⟩ := by
  induction n with
  | zero =>
    intro back θ _
    simp [relPoses, circlePoses]
  | succ n ih =>
    intro back θ h
    have hstep := circleStep_pose M hs hc hq c ρ δ θ back h (le_of_lt hpos)
    have hrel := rel_onCircle M hq c ρ θ δ back _ h hstep hpos
    have htail := ih _ _ hstep
    rw [circlePoses, List.replicate_succ, ← htail, ← hrel]
    simp [relPoses, g2oLib]

theorem circle_angle :
    (2 * Real.pi / ((SE3LoopConstructor.CIRCLE_NODES : ℕ) : ℝ)) = Real.pi / 5 := by
  simp only [SE3LoopConstructor.CIRCLE_NODES]
  push_cast
  ring

theorem circle_half_angle_cos_nonneg :
    0 ≤ Real.cos (2 * Real.pi / ((SE3LoopConstructor.CIRCLE_NODES : ℕ) : ℝ) / 2) := by
  rw [circle_angle]
  apply Real.cos_nonneg_of_mem_Icc
  constructor <;> linarith [Real.pi_pos]

theorem circle_half_angle_cos_pos :
    0 < Real.cos (2 * Real.pi / ((SE3LoopConstructor.CIRCLE_NODES : ℕ) : ℝ) / 2) := by
  rw [circle_angle]
  apply Real.cos_pos_of_mem_Ioo
  constructor <;> linarith [Real.pi_pos]

/-- With the exact `π`, ten steps along the circle from the second anchor lead back to
it, and ten steps composed from the identity give the identity. -/
theorem circle_returns :
    ((⟨⟨0, 0, 0, 1⟩, ⟨1, 0, 0⟩⟩ : SE3Quat ℝ) ::
      circlePoses (g2oLib (MathEnv.mk Real.pi Real.sin Real.cos Real.sqrt))
        (SE3LoopConstructor.circleRelpose (MathEnv.mk Real.pi Real.sin Real.cos Real.sqrt)
          (g2oLib (MathEnv.mk Real.pi Real.sin Real.cos Real.sqrt)) 2)
        ⟨⟨0, 0, 0, 1⟩, ⟨1, 0, 0⟩⟩ SE3LoopConstructor.CIRCLE_NODES).getLast? =
      some ⟨⟨0, 0, 0, 1⟩, ⟨1, 0, 0⟩⟩ ∧
    (List.replicate 10 (SE3LoopConstructor.circleRelpose
        (MathEnv.mk Real.pi Real.sin Real.cos Real.sqrt)
        (g2oLib (MathEnv.mk Real.pi Real.sin Real.cos Real.sqrt)) 2)).foldl
      (g2oLib (MathEnv.mk Real.pi Real.sin Real.cos Real.sqrt)).mul
      (g2oLib (MathEnv.mk Real.pi Real.sin Real.cos Real.sqrt)).identity = SE3Quat.Identity := by
  have hten : (0 : ℝ) + ((10 : ℕ) : ℝ) * (2 * Real.pi / ((SE3LoopConstructor.CIRCLE_NODES : ℕ) : ℝ))
      = 2 * Real.pi := by
    rw [circle_angle]; push_cast; ring
  obtain ⟨last, hlast, hon⟩ := circlePoses_onCircle
    (MathEnv.mk Real.pi Real.sin Real.cos Real.sqrt) rfl rfl rfl 1 2
    (2 * Real.pi / ((SE3LoopConstructor.CIRCLE_NODES : ℕ) : ℝ)) circle_half_angle_cos_nonneg 10
    ⟨⟨0, 0, 0, 1⟩, ⟨1, 0, 0⟩⟩ 0 (onCircle_zero 1 2)
  rw [hten] at hon
  have hlast_eq := onCircle_two_pi 1 2 last hon
  subst hlast_eq
  have hfold := foldl_onCircle
    (MathEnv.mk Real.pi Real.sin Real.cos Real.sqrt) rfl rfl rfl 0 2
    (2 * Real.pi / ((SE3LoopConstructor.CIRCLE_NODES : ℕ) : ℝ)) circle_half_angle_cos_nonneg 10
    ⟨⟨0, 0, 0, 1⟩, ⟨0, 0, 0⟩⟩ 0 (onCircle_zero 0 2)
  rw [hten] at hfold
  exact ⟨hlast, onCircle_two_pi 0 2 _ hfold⟩

/-- The step of the circle with the exact `π`: rotation by `π/5` about the z axis,
translation `(2 sin(π/5), 2 - 2 cos(π/5), 0)`. -/
theorem circleRelpose_exact :
    SE3LoopConstructor.circleRelpose (MathEnv.mk Real.pi Real.sin Real.cos Real.sqrt)
      (g2oLib (MathEnv.mk Real.pi Real.sin Real.cos Real.sqrt)) 2 =
      (⟨⟨0, 0, Real.sin (Real.pi / 10), Real.cos (Real.pi / 10)⟩,
        ⟨2 * Real.sin (Real.pi / 5), 2 - 2 * Real.cos (Real.pi / 5), 0⟩⟩ : SE3Quat ℝ) := by
  have h := ofQuatTran_step (MathEnv.mk Real.pi Real.sin Real.cos Real.sqrt) rfl rfl rfl 2
    (2 * Real.pi / ((SE3LoopConstructor.CIRCLE_NODES : ℕ) : ℝ)) circle_half_angle_cos_nonneg
  have h5 : Real.pi / 5 / 2 = Real.pi / 10 := by ring
  rw [circle_angle, h5] at h
  rw [← h]
  simp only [SE3LoopConstructor.circleRelpose, g2oLib, circle_angle]

/-- Loop consistency on the quaternion model: over the reals, with `PI` the exact `π`,
the exact `sin`, `cos` and `sqrt`, and `edge_noise = false`, the measurements of the
chain edges `(1,2), ..., (10,11)` of the graph of `construct` are all the step of the
circle, and composed in order they give the measurement of the loop-closure edge (both
are the identity pose). -/
theorem construct_loop_consistent_exact (random : Nat → ℝ) (config0 : G2oConfig ℝ)
    (init_vtx : Bool) (tran_noise : Vector3d ℝ) (quat_noise : Vector4d ℝ) :
    ∃ s chain loop, (SE3LoopConstructor.new config0).construct
        (MathEnv.mk Real.pi Real.sin Real.cos Real.sqrt)
        (g2oLib (MathEnv.mk Real.pi Real.sin Real.cos Real.sqrt)) random SparseOptimizer.empty
        ⟨init_vtx, false, tran_noise, quat_noise⟩ = some s ∧
      s.optimizer.edges = chain ++ [loop] ∧
      chain.map EdgeSE3.ends = (List.range 11).map (fun k => (k, k + 1)) ∧
      loop.ends = (1, 11) ∧
      (chain.drop 1).map (fun e => e.measurement) =
        List.replicate 10 ⟨⟨0, 0, Real.sin (Real.pi / 10), Real.cos (Real.pi / 10)⟩,
          ⟨2 * Real.sin (Real.pi / 5), 2 - 2 * Real.cos (Real.pi / 5), 0⟩⟩ ∧
      ((chain.drop 1).map (fun e => e.measurement)).foldl
        (g2oLib (MathEnv.mk Real.pi Real.sin Real.cos Real.sqrt)).mul
        (g2oLib (MathEnv.mk Real.pi Real.sin Real.cos Real.sqrt)).identity
        = loop.measurement := by
  obtain ⟨s, E, loop, hs, _, _, hgt, he, hends, hloop, hmeas⟩ :=
    SE3LoopConstructor.construct_spec (MathEnv.mk Real.pi Real.sin Real.cos Real.sqrt)
      (g2oLib (MathEnv.mk Real.pi Real.sin Real.cos Real.sqrt)) random config0
      ⟨init_vtx, false, tran_noise, quat_noise⟩
  have hp1 : (g2oLib (MathEnv.mk Real.pi Real.sin Real.cos Real.sqrt)).ofQuatTran
      Quaterniond.Identity ⟨1, 0, 0⟩ = ⟨⟨0, 0, 0, 1⟩, ⟨1, 0, 0⟩⟩ :=
    ofQuatTran_identity _ rfl _
  obtain ⟨hlast, hfold⟩ := circle_returns
  rw [hp1] at hgt hmeas
  have hback : s.gt_poses.getLast? = some ⟨⟨0, 0, 0, 1⟩, ⟨1, 0, 0⟩⟩ := by
    rw [hgt, ← hlast]
    simp [List.getLast?_cons_cons]
  have hlm : loop.measurement = SE3Quat.Identity := by
    rw [(hmeas rfl).2 _ hback]
    exact inverse_mul_anchor _ rfl 1
  have hrel := relPoses_circle (MathEnv.mk Real.pi Real.sin Real.cos Real.sqrt) rfl rfl rfl 1 2
    (2 * Real.pi / ((SE3LoopConstructor.CIRCLE_NODES : ℕ) : ℝ)) circle_half_angle_cos_pos 10
    ⟨⟨0, 0, 0, 1⟩, ⟨1, 0, 0⟩⟩ 0 (onCircle_zero 1 2)
  have hdrop : (E.drop 1).map (fun e => e.measurement) =
      List.replicate 10 ⟨⟨0, 0, Real.sin (Real.pi / 10), Real.cos (Real.pi / 10)⟩,
        ⟨2 * Real.sin (Real.pi / 5), 2 - 2 * Real.cos (Real.pi / 5), 0⟩⟩ := by
    rw [List.map_drop, (hmeas rfl).1, hgt]
    have e : (relPoses (g2oLib (MathEnv.mk Real.pi Real.sin Real.cos Real.sqrt))
        ([(g2oLib (MathEnv.mk Real.pi Real.sin Real.cos Real.sqrt)).ofQuatTran
            Quaterniond.Identity ⟨0, 0, 0⟩, (⟨⟨0, 0, 0, 1⟩, ⟨1, 0, 0⟩⟩ : SE3Quat ℝ)] ++
          circlePoses (g2oLib (MathEnv.mk Real.pi Real.sin Real.cos Real.sqrt))
            (SE3LoopConstructor.circleRelpose (MathEnv.mk Real.pi Real.sin Real.cos Real.sqrt)
              (g2oLib (MathEnv.mk Real.pi Real.sin Real.cos Real.sqrt)) 2)
            ⟨⟨0, 0, 0, 1⟩, ⟨1, 0, 0⟩⟩ SE3LoopConstructor.CIRCLE_NODES)).drop 1 =
        relPoses (g2oLib (MathEnv.mk Real.pi Real.sin Real.cos Real.sqrt))
          ((⟨⟨0, 0, 0, 1⟩, ⟨1, 0, 0⟩⟩ : SE3Quat ℝ) ::
          circlePoses (g2oLib (MathEnv.mk Real.pi Real.sin Real.cos Real.sqrt))
            (SE3LoopConstructor.circleRelpose (MathEnv.mk Real.pi Real.sin Real.cos Real.sqrt)
              (g2oLib (MathEnv.mk Real.pi Real.sin Real.cos Real.sqrt)) 2)
            ⟨⟨0, 0, 0, 1⟩, ⟨1, 0, 0⟩⟩ SE3LoopConstructor.CIRCLE_NODES) := by
      simp [relPoses]
    rw [e]
    have hrel' : relPoses (g2oLib (MathEnv.mk Real.pi Real.sin Real.cos Real.sqrt))
        ((⟨⟨0, 0, 0, 1⟩, ⟨1, 0, 0⟩⟩ : SE3Quat ℝ) ::
        circlePoses (g2oLib (MathEnv.mk Real.pi Real.sin Real.cos Real.sqrt))
          (SE3LoopConstructor.circleRelpose (MathEnv.mk Real.pi Real.sin Real.cos Real.sqrt)
            (g2oLib (MathEnv.mk Real.pi Real.sin Real.cos Real.sqrt)) 2)
          ⟨⟨0, 0, 0, 1⟩, ⟨1, 0, 0⟩⟩ SE3LoopConstructor.CIRCLE_NODES) =
        List.replicate 10
          ⟨⟨0, 0, Real.sin (2 * Real.pi / ((SE3LoopConstructor.CIRCLE_NODES : ℕ) : ℝ) / 2),
              Real.cos (2 * Real.pi / ((SE3LoopConstructor.CIRCLE_NODES : ℕ) : ℝ) / 2)⟩,
            ⟨2 * Real.sin (2 * Real.pi / ((SE3LoopConstructor.CIRCLE_NODES : ℕ) : ℝ)),
              2 - 2 * Real.cos (2 * Real.pi / ((SE3LoopConstructor.CIRCLE_NODES : ℕ) : ℝ)), 0⟩⟩ :=
      hrel
    have h5 : Real.pi / 5 / 2 = Real.pi / 10 := by ring
    rw [circle_angle, h5] at hrel'
    exact hrel'
  refine ⟨s, E, loop, hs, he, hends, hloop, hdrop, ?_⟩
  rw [hlm, hdrop, ← circleRelpose_exact]
  exact hfold

/-! ## The properties of the specification -/

/-- C1 (as amended): for every pose library, scalar environment and generator, `construct`
on a new constructor and an empty optimizer, with `init_vtx = false` and
`edge_noise = false`, returns a graph whose vertex ids are `0..11` (12 vertices) and
whose 12 edges are, in order, the 11 chain edges `(0,1), (1,2), ..., (10,11)` and the
loop-closure edge `(1,11)`. -/
theorem construct_default_graph {K P : Type} [Field K] (M : MathEnv K) (L : PoseLib K P)
    (random : Nat → K) (config0 : G2oConfig K) (tran_noise : Vector3d K)
    (quat_noise : Vector4d K) :
    ∃ s, (SE3LoopConstructor.new config0).construct M L random SparseOptimizer.empty
        ⟨false, false, tran_noise, quat_noise⟩ = some s ∧
      s.optimizer.vertices.map (fun v => v.id) = List.range 12 ∧
      s.optimizer.edges.length = 12 ∧
      s.optimizer.edges.map EdgeSE3.ends =
        (List.range 11).map (fun k => (k, k + 1)) ++ [(1, 11)] := by
  obtain ⟨s, E, loop, hs, hd, _, hgt, he, hends, hloop, _⟩ :=
    SE3LoopConstructor.construct_spec M L random config0 ⟨false, false, tran_noise, quat_noise⟩
  have hlen : s.gt_poses.length = 12 := by
    rw [hgt]; simp [SE3LoopConstructor.circlePoses_length, SE3LoopConstructor.CIRCLE_NODES]
  have hmap : s.optimizer.edges.map EdgeSE3.ends =
      (List.range 11).map (fun k => (k, k + 1)) ++ [(1, 11)] := by
    rw [he, List.map_append, hends, List.map_singleton, hloop]
  refine ⟨s, hs, ?_, ?_, hmap⟩
  · rw [hd.ids, hlen]
  · have := congrArg List.length hmap
    simpa using this

/-- C1 (counterexample): over the reals, with the default parameters, `init_vtx = false`
and `edge_noise = false`, it is not the case that `construct` returns a graph with
vertex ids `0..11` and exactly 11 edges: the graph has 12 edges. -/
theorem construct_default_not_eleven_edges :
    ¬ ∃ s : SE3LoopConstructor ℝ (SE3Quat ℝ),
      (SE3LoopConstructor.new ⟨false, false, ⟨0, 0, 0⟩, ⟨0, 0, 0, 0⟩⟩).construct
        (MathEnv.mk Real.pi Real.sin Real.cos Real.sqrt)
        (g2oLib (MathEnv.mk Real.pi Real.sin Real.cos Real.sqrt)) (fun _ => 0)
        SparseOptimizer.empty ⟨false, false, ⟨0, 0, 0⟩, ⟨0, 0, 0, 0⟩⟩ = some s ∧
      s.optimizer.vertices.map (fun v => v.id) = List.range 12 ∧
      s.optimizer.edges.length = 11 := by
  rintro ⟨s, hs, _, hlen⟩
  obtain ⟨s', E, loop, hs', _, _, _, he, hends, _, _⟩ :=
    SE3LoopConstructor.construct_spec (MathEnv.mk Real.pi Real.sin Real.cos Real.sqrt)
      (g2oLib (MathEnv.mk Real.pi Real.sin Real.cos Real.sqrt)) (fun _ => 0)
      (⟨false, false, ⟨0, 0, 0⟩, ⟨0, 0, 0, 0⟩⟩ : G2oConfig ℝ)
      ⟨false, false, ⟨0, 0, 0⟩, ⟨0, 0, 0, 0⟩⟩
  rw [hs] at hs'
  cases hs'
  have hE : E.length = 11 := by
    have := congrArg List.length hends
    simpa using this
  rw [he, List.length_append, hE] at hlen
  simp at hlen

theorem PoseLib.IsGroup.relPoses_foldl {K P : Type} {L : PoseLib K P} (hG : L.IsGroup) (l : List P) :
    ∀ (a acc last : P), (a :: l).getLast? = some last →
      (relPoses L (a :: l)).foldl L.mul acc = L.mul (L.mul acc (L.inverse a)) last := by
  induction l with
  | nil =>
    intro a acc last hlast
    simp only [List.getLast?_singleton, Option.some.injEq] at hlast
    subst hlast
    simp only [relPoses, List.tail_cons, List.zipWith_nil_right, List.foldl_nil]
    rw [hG.mul_assoc, hG.inv_mul_cancel, hG.mul_one]
  | cons b l ih =>
    intro a acc last hlast
    rw [List.getLast?_cons_cons] at hlast
    have h := ih b (L.mul acc (L.mul (L.inverse a) b)) last hlast
    have e : relPoses L (a :: b :: l) = L.mul (L.inverse a) b :: relPoses L (b :: l) := by
      simp [relPoses]
    rw [e, List.foldl_cons, h]
    congr 1
    rw [hG.mul_assoc, hG.mul_assoc, hG.mul_inv_cancel, hG.mul_one]

theorem getElem?_of_maps {K P : Type} (E : List (EdgeSE3 K P)) (ends : List (Nat × Nat))
    (meas : List P) (h1 : E.map EdgeSE3.ends = ends) (h2 : E.map (fun e => e.measurement) = meas)
    (k : Nat) (x : Nat × Nat) (m : P) (hx : ends[k]? = some x) (hm : meas[k]? = some m) :
    ∃ e, E[k]? = some e ∧ e.id0 = x.1 ∧ e.id1 = x.2 ∧ e.measurement = m := by
  subst h1 h2
  rw [List.getElem?_map] at hx hm
  cases he : E[k]? with
  | none => rw [he] at hx; simp at hx
  | some e =>
    rw [he] at hx hm
    simp only [Option.map_some', Option.some.injEq] at hx hm
    refine ⟨e, rfl, ?_, ?_, hm⟩
    · rw [← hx]; rfl
    · rw [← hx]; rfl

/-- C2: with `edge_noise = false`, on a ground-truth list of length `N ≥ 2` whose indices
are ids of vertices of the graph, `setEdgesBtwPoses` returns, and for every `i` with
`1 ≤ i ≤ N-1` the `(i-1)`-th edge it adds (the edges are added in increasing `i`) has
the endpoints `(i-1, i)` and the measurement `gt[i-1]⁻¹ ∘ gt[i]`. -/
theorem setEdgesBtwPoses_chain_edges {K P : Type} [Field K] (L : PoseLib K P)
    (random : Nat → K) (s : SE3LoopConstructor K P) (hN : 2 ≤ s.gt_poses.length)
    (hnoise : s.config.edge_noise = false)
    (hv : ∀ k, k < s.gt_poses.length → (s.optimizer.find k).isSome = true) :
    ∃ s', s.setEdgesBtwPoses L random = some s' ∧
      ∀ i a b, 1 ≤ i → s.gt_poses[i - 1]? = some a → s.gt_poses[i]? = some b →
        ∃ e, s'.optimizer.edges[s.optimizer.edges.length + (i - 1)]? = some e ∧
          e.id0 = i - 1 ∧ e.id1 = i ∧ e.measurement = L.mul (L.inverse a) b := by
  have hfirst : s.gt_poses[1]? = some s.gt_poses[1] := List.getElem?_eq_getElem (by omega)
  obtain ⟨back, hback⟩ : ∃ back, s.gt_poses.getLast? = some back := by
    rw [List.getLast?_eq_getElem?]
    exact ⟨s.gt_poses[s.gt_poses.length - 1], List.getElem?_eq_getElem (by omega)⟩
  obtain ⟨s', E, loop, hs', _, he, hends, _, hmeas⟩ :=
    SE3LoopConstructor.setEdgesBtwPoses_spec L random s _ back hfirst hback hv
  refine ⟨s', hs', ?_⟩
  intro i a b hi ha hb
  have hilt : i < s.gt_poses.length := by
    by_contra hc
    rw [List.getElem?_eq_none (by omega)] at hb
    exact absurd hb (by simp)
  have hElen : E.length = s.gt_poses.length - 1 := by
    have := congrArg List.length hends
    simpa using this
  have hb' : s.gt_poses[i - 1 + 1]? = some b := by rw [Nat.sub_add_cancel hi]; exact hb
  obtain ⟨e, hek, h0, h1, hm⟩ := getElem?_of_maps E _ _ hends (hmeas hnoise).1 (i - 1)
    (i - 1, i - 1 + 1) (L.mul (L.inverse a) b)
    (by rw [List.getElem?_map, List.getElem?_range (by omega)]; rfl)
    (SE3LoopConstructor.relPoses_getElem? L s.gt_poses (i - 1) a b ha hb')
  refine ⟨e, ?_, h0, ?_, hm⟩
  · rw [he, List.append_assoc, List.getElem?_append_right (by omega),
      Nat.add_sub_cancel_left, List.getElem?_append_left (by omega)]
    exact hek
  · rw [h1]; exact Nat.sub_add_cancel hi

/-- C2 (witness): the hypotheses hold of the constructor after `setInitPoseVertices`,
over the reals with the exact scalar functions. -/
theorem setEdgesBtwPoses_chain_edges_witness :
    ∃ (L : PoseLib ℝ (SE3Quat ℝ)) (s : SE3LoopConstructor ℝ (SE3Quat ℝ)),
      L = g2oLib (MathEnv.mk Real.pi Real.sin Real.cos Real.sqrt) ∧
      s = (SE3LoopConstructor.new ⟨false, false, ⟨0, 0, 0⟩, ⟨0, 0, 0, 0⟩⟩).setInitPoseVertices L ∧
      2 ≤ s.gt_poses.length ∧ s.config.edge_noise = false ∧
      (∀ k, k < s.gt_poses.length → (s.optimizer.find k).isSome = true) ∧
      ∃ s', s.setEdgesBtwPoses L (fun _ => 0) = some s' ∧
        ∀ i a b, 1 ≤ i → s.gt_poses[i - 1]? = some a → s.gt_poses[i]? = some b →
          ∃ e, s'.optimizer.edges[s.optimizer.edges.length + (i - 1)]? = some e ∧
            e.id0 = i - 1 ∧ e.id1 = i ∧ e.measurement = L.mul (L.inverse a) b :=
  have hv : ∀ k, k < 2 → ((((SE3LoopConstructor.new ⟨false, false, ⟨0, 0, 0⟩, ⟨0, 0, 0, 0⟩⟩ :
      SE3LoopConstructor ℝ (SE3Quat ℝ)).setInitPoseVertices
      (g2oLib (MathEnv.mk Real.pi Real.sin Real.cos Real.sqrt))).optimizer.find k).isSome
      = true) := by
    intro k hk
    interval_cases k <;> rfl
  ⟨_, _, rfl, rfl, by decide, rfl, hv,
    setEdgesBtwPoses_chain_edges _ _ _ (by decide) rfl hv⟩

/-- C3: on a ground-truth list of length `N ≥ 2` whose indices are ids of vertices of the
graph, `setEdgesBtwPoses` returns, and the edges it adds are the `N-1` chain edges
`(0,1), ..., (N-2,N-1)` followed by exactly one more edge, the loop-closure edge; its
endpoints are `(1, N-1)` (so its first endpoint is not `0`), and with
`edge_noise = false` its measurement is `gt[1]⁻¹ ∘ gt[N-1]`. -/
theorem setEdgesBtwPoses_loop_edge {K P : Type} [Field K] (L : PoseLib K P)
    (random : Nat → K) (s : SE3LoopConstructor K P) (hN : 2 ≤ s.gt_poses.length)
    (hv : ∀ k, k < s.gt_poses.length → (s.optimizer.find k).isSome = true) :
    ∃ s' chain loop, s.setEdgesBtwPoses L random = some s' ∧
      s'.optimizer.edges = s.optimizer.edges ++ chain ++ [loop] ∧
      chain.map EdgeSE3.ends = (List.range (s.gt_poses.length - 1)).map (fun k => (k, k + 1)) ∧
      loop.id0 = 1 ∧ loop.id1 = s.gt_poses.length - 1 ∧ loop.id0 ≠ 0 ∧
      (s.config.edge_noise = false → ∀ first last, s.gt_poses[1]? = some first →
        s.gt_poses[s.gt_poses.length - 1]? = some last →
        loop.measurement = L.mul (L.inverse first) last) := by
  have hfirst : s.gt_poses[1]? = some s.gt_poses[1] := List.getElem?_eq_getElem (by omega)
  have hlast : s.gt_poses[s.gt_poses.length - 1]? = some s.gt_poses[s.gt_poses.length - 1] :=
    List.getElem?_eq_getElem (by omega)
  have hback : s.gt_poses.getLast? = some s.gt_poses[s.gt_poses.length - 1] := by
    rw [List.getLast?_eq_getElem?]; exact hlast
  obtain ⟨s', E, loop, hs', _, he, hends, hloop, hmeas⟩ :=
    SE3LoopConstructor.setEdgesBtwPoses_spec L random s _ _ hfirst hback hv
  have h0 : loop.id0 = 1 := congrArg Prod.fst hloop
  have h1 : loop.id1 = s.gt_poses.length - 1 := congrArg Prod.snd hloop
  refine ⟨s', E, loop, hs', he, hends, h0, h1, by rw [h0]; decide, ?_⟩
  intro hn first last hf hl
  rw [hfirst] at hf
  rw [hlast] at hl
  cases hf
  cases hl
  exact (hmeas hn).2

/-- C3 (witness): the hypotheses hold of the constructor after `setInitPoseVertices`,
over the reals with the exact scalar functions; there `N = 2` and the loop-closure edge
is `(1, 1)`. -/
theorem setEdgesBtwPoses_loop_edge_witness :
    ∃ (L : PoseLib ℝ (SE3Quat ℝ)) (s : SE3LoopConstructor ℝ (SE3Quat ℝ)),
      L = g2oLib (MathEnv.mk Real.pi Real.sin Real.cos Real.sqrt) ∧
      s = (SE3LoopConstructor.new ⟨false, false, ⟨0, 0, 0⟩, ⟨0, 0, 0, 0⟩⟩).setInitPoseVertices L ∧
      2 ≤ s.gt_poses.length ∧
      (∀ k, k < s.gt_poses.length → (s.optimizer.find k).isSome = true) ∧
      ∃ s' chain loop, s.setEdgesBtwPoses L (fun _ => 0) = some s' ∧
        s'.optimizer.edges = s.optimizer.edges ++ chain ++ [loop] ∧
        chain.map EdgeSE3.ends =
          (List.range (s.gt_poses.length - 1)).map (fun k => (k, k + 1)) ∧
        loop.id0 = 1 ∧ loop.id1 = s.gt_poses.length - 1 ∧ loop.id0 ≠ 0 ∧
        (s.config.edge_noise = false → ∀ first last, s.gt_poses[1]? = some first →
          s.gt_poses[s.gt_poses.length - 1]? = some last →
          loop.measurement = L.mul (L.inverse first) last) :=
  have hv : ∀ k, k < 2 → ((((SE3LoopConstructor.new ⟨false, false, ⟨0, 0, 0⟩, ⟨0, 0, 0, 0⟩⟩ :
      SE3LoopConstructor ℝ (SE3Quat ℝ)).setInitPoseVertices
      (g2oLib (MathEnv.mk Real.pi Real.sin Real.cos Real.sqrt))).optimizer.find k).isSome
      = true) := by
    intro k hk
    interval_cases k <;> rfl
  ⟨_, _, rfl, rfl, by decide, hv, setEdgesBtwPoses_loop_edge _ _ _ (by decide) hv⟩

theorem translationLib_isGroup {K : Type} [Field K] :
    (translationLib : PoseLib K (Vector3d K)).IsGroup := by
  refine ⟨?_, ?_, ?_, ?_, ?_⟩
  · intro a b c
    simp only [translationLib, Vector3d.add, Vector3d.mk.injEq]
    exact ⟨add_assoc _ _ _, add_assoc _ _ _, add_assoc _ _ _⟩
  · intro a
    simp [translationLib, Vector3d.add]
  · intro a
    simp [translationLib, Vector3d.add]
  · intro a
    simp [translationLib, Vector3d.add]
  · intro a
    simp [translationLib, Vector3d.add]

/-- C4: when the poses form a group under the composition and inverse of the pose
library, as the elements of SE(3) do, and `edge_noise = false`, the graph `construct`
builds on a new constructor and an empty optimizer consists of the chain edges
`(0,1), ..., (10,11)` followed by the loop-closure edge `(1,11)`, and composing in order
the measurements of the chain edges `(1,2), (2,3), ..., (10,11)` gives exactly the
measurement of the loop-closure edge. -/
theorem construct_loop_consistent {K P : Type} [Field K] (M : MathEnv K) (L : PoseLib K P)
    (random : Nat → K) (config0 : G2oConfig K) (init_vtx : Bool) (tran_noise : Vector3d K)
    (quat_noise : Vector4d K) (hG : L.IsGroup) :
    ∃ s chain loop, (SE3LoopConstructor.new config0).construct M L random SparseOptimizer.empty
        ⟨init_vtx, false, tran_noise, quat_noise⟩ = some s ∧
      s.optimizer.edges = chain ++ [loop] ∧
      chain.map EdgeSE3.ends = (List.range 11).map (fun k => (k, k + 1)) ∧
      loop.ends = (1, 11) ∧
      ((chain.drop 1).map (fun e => e.measurement)).foldl L.mul L.identity
        = loop.measurement := by
  obtain ⟨s, E, loop, hs, _, _, hgt, he, hends, hloop, hmeas⟩ :=
    SE3LoopConstructor.construct_spec M L random config0
      ⟨init_vtx, false, tran_noise, quat_noise⟩
  obtain ⟨hE, hl⟩ := hmeas rfl
  refine ⟨s, E, loop, hs, he, hends, hloop, ?_⟩
  obtain ⟨back, hback⟩ : ∃ back, s.gt_poses.getLast? = some back := by
    rw [hgt]
    cases h : ([L.ofQuatTran Quaterniond.Identity ⟨0, 0, 0⟩,
      L.ofQuatTran Quaterniond.Identity ⟨1, 0, 0⟩] ++
      circlePoses L (SE3LoopConstructor.circleRelpose M L 2)
        (L.ofQuatTran Quaterniond.Identity ⟨1, 0, 0⟩) SE3LoopConstructor.CIRCLE_NODES).getLast? with
    | none => simp at h
    | some b => exact ⟨b, rfl⟩
  rw [hl back hback, List.map_drop, hE, hgt]
  have hback' : (L.ofQuatTran Quaterniond.Identity ⟨1, 0, 0⟩ ::
      circlePoses L (SE3LoopConstructor.circleRelpose M L 2)
        (L.ofQuatTran Quaterniond.Identity ⟨1, 0, 0⟩)
        SE3LoopConstructor.CIRCLE_NODES).getLast? = some back := by
    rw [hgt] at hback
    simpa [List.getLast?_cons_cons] using hback
  have e : (relPoses L ([L.ofQuatTran Quaterniond.Identity ⟨0, 0, 0⟩,
      L.ofQuatTran Quaterniond.Identity ⟨1, 0, 0⟩] ++
      circlePoses L (SE3LoopConstructor.circleRelpose M L 2)
        (L.ofQuatTran Quaterniond.Identity ⟨1, 0, 0⟩) SE3LoopConstructor.CIRCLE_NODES)).drop 1
      = relPoses L (L.ofQuatTran Quaterniond.Identity ⟨1, 0, 0⟩ ::
        circlePoses L (SE3LoopConstructor.circleRelpose M L 2)
          (L.ofQuatTran Quaterniond.Identity ⟨1, 0, 0⟩) SE3LoopConstructor.CIRCLE_NODES) := by
    simp [relPoses]
  rw [e, hG.relPoses_foldl _ _ _ back hback', hG.one_mul]

/-- C4 (witness): the pure translations over the reals are a pose library that is a
group, and the statement holds of it. -/
theorem construct_loop_consistent_witness :
    (translationLib : PoseLib ℝ (Vector3d ℝ)).IsGroup ∧
    ∃ s chain loop, (SE3LoopConstructor.new ⟨false, false, ⟨0, 0, 0⟩, ⟨0, 0, 0, 0⟩⟩).construct
        (MathEnv.mk Real.pi Real.sin Real.cos Real.sqrt)
        (translationLib : PoseLib ℝ (Vector3d ℝ)) (fun _ => 0) SparseOptimizer.empty
        ⟨false, false, ⟨0, 0, 0⟩, ⟨0, 0, 0, 0⟩⟩ = some s ∧
      s.optimizer.edges = chain ++ [loop] ∧
      chain.map EdgeSE3.ends = (List.range 11).map (fun k => (k, k + 1)) ∧
      loop.ends = (1, 11) ∧
      ((chain.drop 1).map (fun e => e.measurement)).foldl
        (translationLib : PoseLib ℝ (Vector3d ℝ)).mul
        (translationLib : PoseLib ℝ (Vector3d ℝ)).identity = loop.measurement :=
  ⟨translationLib_isGroup, construct_loop_consistent _ _ _ _ _ _ _ translationLib_isGroup⟩

/-! ## The noise of `addNoisePoseMeasurement` -/

theorem noise_term_bounds {K : Type} [LinearOrderedField K] (bound r : K) (hb : 0 ≤ bound)
    (h0 : -1 ≤ r) (h1 : r ≤ 1) :
    -(3 / 2) * bound ≤ bound * (r - 1 / 2) ∧ bound * (r - 1 / 2) ≤ (1 / 2) * bound := by
  constructor
  · nlinarith
  · nlinarith

/-- What the code guarantees of the noise: with every value of the generator in
`[-1, 1]` and non-negative bounds, each component of `tran_w_noise` and `rota_w_noise`
differs from the component of the input pose by a value in
`[-1.5 * bound, 0.5 * bound]`. -/
theorem noise_bounds {K P : Type} [LinearOrderedField K] (L : PoseLib K P)
    (config : G2oConfig K) (random : Nat → K) (n : Nat) (srcpose : P)
    (hr : ∀ k, -1 ≤ random k ∧ random k ≤ 1)
    (ht : 0 ≤ config.tran_noise.x ∧ 0 ≤ config.tran_noise.y ∧ 0 ≤ config.tran_noise.z)
    (hq : 0 ≤ config.quat_noise.x ∧ 0 ≤ config.quat_noise.y ∧ 0 ≤ config.quat_noise.z ∧
      0 ≤ config.quat_noise.w) :
    (-(3 / 2) * config.tran_noise.x ≤
        (SE3LoopConstructor.tran_w_noise L config random n srcpose).x - (L.translation srcpose).x ∧
      (SE3LoopConstructor.tran_w_noise L config random n srcpose).x - (L.translation srcpose).x
        ≤ (1 / 2) * config.tran_noise.x) ∧
    (-(3 / 2) * config.tran_noise.y ≤
        (SE3LoopConstructor.tran_w_noise L config random n srcpose).y - (L.translation srcpose).y ∧
      (SE3LoopConstructor.tran_w_noise L config random n srcpose).y - (L.translation srcpose).y
        ≤ (1 / 2) * config.tran_noise.y) ∧
    (-(3 / 2) * config.tran_noise.z ≤
        (SE3LoopConstructor.tran_w_noise L config random n srcpose).z - (L.translation srcpose).z ∧
      (SE3LoopConstructor.tran_w_noise L config random n srcpose).z - (L.translation srcpose).z
        ≤ (1 / 2) * config.tran_noise.z) ∧
    (-(3 / 2) * config.quat_noise.x ≤
        (SE3LoopConstructor.rota_w_noise L config random n srcpose).x - (L.rotation srcpose).x ∧
      (SE3LoopConstructor.rota_w_noise L config random n srcpose).x - (L.rotation srcpose).x
        ≤ (1 / 2) * config.quat_noise.x) ∧
    (-(3 / 2) * config.quat_noise.y ≤
        (SE3LoopConstructor.rota_w_noise L config random n srcpose).y - (L.rotation srcpose).y ∧
      (SE3LoopConstructor.rota_w_noise L config random n srcpose).y - (L.rotation srcpose).y
        ≤ (1 / 2) * config.quat_noise.y) ∧
    (-(3 / 2) * config.quat_noise.z ≤
        (SE3LoopConstructor.rota_w_noise L config random n srcpose).z - (L.rotation srcpose).z ∧
      (SE3LoopConstructor.rota_w_noise L config random n srcpose).z - (L.rotation srcpose).z
        ≤ (1 / 2) * config.quat_noise.z) ∧
    (-(3 / 2) * config.quat_noise.w ≤
        (SE3LoopConstructor.rota_w_noise L config random n srcpose).w - (L.rotation srcpose).w ∧
      (SE3LoopConstructor.rota_w_noise L config random n srcpose).w - (L.rotation srcpose).w
        ≤ (1 / 2) * config.quat_noise.w) := by
  simp only [SE3LoopConstructor.tran_w_noise, SE3LoopConstructor.rota_w_noise, Vector3d.add,
    Vector3d.sub, Vector3d.cwiseProduct, Vector3d.Random, Vector3d.Constant, Vector4d.add,
    Vector4d.sub, Vector4d.cwiseProduct, Vector4d.Random, Vector4d.Constant,
    Quaterniond.coeffs, add_sub_cancel_left]
  exact ⟨noise_term_bounds _ _ ht.1 (hr _).1 (hr _).2,
    noise_term_bounds _ _ ht.2.1 (hr _).1 (hr _).2,
    noise_term_bounds _ _ ht.2.2 (hr _).1 (hr _).2,
    noise_term_bounds _ _ hq.1 (hr _).1 (hr _).2,
    noise_term_bounds _ _ hq.2.1 (hr _).1 (hr _).2,
    noise_term_bounds _ _ hq.2.2.1 (hr _).1 (hr _).2,
    noise_term_bounds _ _ hq.2.2.2 (hr _).1 (hr _).2⟩

/-- C5 (the code at the failing input): with the bounds `tran_noise = (0.1, 0.1, 0.1)`,
`quat_noise = (0.02, 0.02, 0.02, 0.02)`, the identity pose as input and a generator that
returns `-1` (a value of `[-1, 1]`), the pose built before the normalisation has the
translation component `x = -0.15` and the quaternion coefficient `w = 0.97`: they are
`0.15` and `0.03` away from the input, not within `0.5 * bound` (`0.05` and `0.01`). -/
theorem addNoise_exceeds_half_bound :
    ∃ (L : PoseLib ℝ (SE3Quat ℝ)) (config : G2oConfig ℝ) (random : Nat → ℝ),
      L = g2oLib (MathEnv.mk Real.pi Real.sin Real.cos Real.sqrt) ∧
      config = ⟨false, true, ⟨1 / 10, 1 / 10, 1 / 10⟩, ⟨1 / 50, 1 / 50, 1 / 50, 1 / 50⟩⟩ ∧
      random = (fun _ => -1) ∧
      (∀ k, -1 ≤ random k ∧ random k ≤ 1) ∧
      (SE3LoopConstructor.tran_w_noise L config random 0 SE3Quat.Identity).x = -(3 / 20) ∧
      ¬ |(SE3LoopConstructor.tran_w_noise L config random 0 SE3Quat.Identity).x
          - (L.translation SE3Quat.Identity).x| ≤ (1 / 2) * config.tran_noise.x ∧
      (SE3LoopConstructor.rota_w_noise L config random 3 SE3Quat.Identity).w = 97 / 100 ∧
      ¬ |(SE3LoopConstructor.rota_w_noise L config random 3 SE3Quat.Identity).w
          - (L.rotation SE3Quat.Identity).w| ≤ (1 / 2) * config.quat_noise.w := by
  refine ⟨_, _, _, rfl, rfl, rfl, ?_, ?_, ?_, ?_, ?_⟩
  · intro k; constructor <;> norm_num
  · simp only [SE3LoopConstructor.tran_w_noise, g2oLib, SE3Quat.Identity, Vector3d.add,
      Vector3d.sub, Vector3d.cwiseProduct, Vector3d.Random, Vector3d.Constant]
    norm_num
  · simp only [SE3LoopConstructor.tran_w_noise, g2oLib, SE3Quat.Identity, Vector3d.add,
      Vector3d.sub, Vector3d.cwiseProduct, Vector3d.Random, Vector3d.Constant]
    norm_num [abs_of_nonneg]
  · simp only [SE3LoopConstructor.rota_w_noise, g2oLib, SE3Quat.Identity, Quaterniond.Identity,
      Quaterniond.coeffs, Vector4d.add, Vector4d.sub, Vector4d.cwiseProduct, Vector4d.Random,
      Vector4d.Constant]
    norm_num
  · simp only [SE3LoopConstructor.rota_w_noise, g2oLib, SE3Quat.Identity, Quaterniond.Identity,
      Quaterniond.coeffs, Vector4d.add, Vector4d.sub, Vector4d.cwiseProduct, Vector4d.Random,
      Vector4d.Constant]
    norm_num [abs_of_nonneg]

/-- C6: for every pose, flag `set_fixed`, configuration and constructor state,
`addPoseVertex(pose, set_fixed)` hands exactly one vertex to the optimizer; its id is
the new id, its fixed-flag is `set_fixed`, its estimate is set to `pose` if and only if
`set_fixed` or `config.init_vtx` holds and is left unset otherwise; where the new id
is not yet a key of the vertex map, the vertices of the graph are the earlier ones and
this one.  The edges are left alone, and `pose` is appended to the ground-truth list,
whatever the flags, with the earlier entries unchanged. -/
theorem addPoseVertex_spec {K P : Type} (s : SE3LoopConstructor K P) (pose : P)
    (set_fixed : Bool) :
    ∃ v : VertexSE3 P, v.id = s.vertex_id ∧ v.fixed = set_fixed ∧
      (v.estimate = some pose ↔ (set_fixed = true ∨ s.config.init_vtx = true)) ∧
      (¬ (set_fixed = true ∨ s.config.init_vtx = true) → v.estimate = none) ∧
      (s.addPoseVertex pose set_fixed).optimizer = s.optimizer.addVertex v ∧
      (s.optimizer.find s.vertex_id = none →
        (s.addPoseVertex pose set_fixed).optimizer.vertices = s.optimizer.vertices ++ [v]) ∧
      (s.addPoseVertex pose set_fixed).optimizer.edges = s.optimizer.edges ∧
      (s.addPoseVertex pose set_fixed).gt_poses = s.gt_poses ++ [pose] ∧
      (∀ k, k < s.gt_poses.length →
        (s.addPoseVertex pose set_fixed).gt_poses[k]? = s.gt_poses[k]?) := by
  have hopt := SE3LoopConstructor.addPoseVertex_optimizer s pose set_fixed
  refine ⟨_, rfl, rfl, ?_, ?_, hopt, ?_, ?_, rfl, ?_⟩
  · cases set_fixed <;> cases s.config.init_vtx <;> simp
  · cases set_fixed <;> cases s.config.init_vtx <;> simp
  · intro hfresh
    rw [hopt, SparseOptimizer.addVertex_fresh _ _ hfresh]
  · rw [hopt]
    simp only [SparseOptimizer.addVertex]
    split <;> rfl
  · intro k hk
    rw [SE3LoopConstructor.addPoseVertex_gt_poses, List.getElem?_append_left hk]

/-- C8: for every configuration (and pose library, scalar environment and generator),
`construct` on a new constructor (ids `0, 1, 2, ...` from `getNewID`) and an empty
optimizer returns; the vertex ids of the graph, in creation order, are `0, ..., N-1`
with `N` the length of the ground-truth list (no gap, no duplicate, as many vertices
as ground-truth entries), and the poses handed to `addPoseVertex`, in call order, are
the ground-truth list: entry `k` is the pose passed when vertex `k` was created.  Where a
vertex has its estimate set, it is the ground-truth entry at its id. -/
theorem construct_ids_dense {K P : Type} [Field K] (M : MathEnv K) (L : PoseLib K P)
    (random : Nat → K) (config0 config : G2oConfig K) :
    ∃ s, (SE3LoopConstructor.new config0).construct M L random SparseOptimizer.empty config
        = some s ∧
      s.optimizer.vertices.map (fun v => v.id) = List.range s.gt_poses.length ∧
      (s.optimizer.vertices.map (fun v => v.id)).Nodup ∧
      s.optimizer.vertices.length = s.gt_poses.length ∧
      s.cout.filterMap Output.addedPose? = s.gt_poses ∧
      (∀ v ∈ s.optimizer.vertices, ∀ e, v.estimate = some e → s.gt_poses[v.id]? = some e) := by
  obtain ⟨s, E, loop, hs, hd, _⟩ := SE3LoopConstructor.construct_spec M L random config0 config
  refine ⟨s, hs, hd.ids, ?_, ?_, hd.logged, hd.est⟩
  · rw [hd.ids]; exact List.nodup_range _
  · have := congrArg List.length hd.ids
    simpa using this

/-- C9: for every configuration (and pose library, scalar environment and generator),
`construct` on a new constructor and an empty optimizer returns, that is, no vertex
lookup of `addEdgePosePose` ends at `end()` (an edge is only added when both lookups
find a vertex in the graph as it is then), and both endpoints of every edge of the
graph are ids of vertices of the graph. -/
theorem construct_edges_wellformed {K P : Type} [Field K] (M : MathEnv K) (L : PoseLib K P)
    (random : Nat → K) (config0 config : G2oConfig K) :
    (∃ s, (SE3LoopConstructor.new config0).construct M L random SparseOptimizer.empty config
        = some s ∧
      ∀ e ∈ s.optimizer.edges,
        (∃ v ∈ s.optimizer.vertices, v.id = e.id0) ∧ (∃ v ∈ s.optimizer.vertices, v.id = e.id1)) ∧
    (∀ (t t' : SE3LoopConstructor K P) (id0 id1 : Nat) (relpose : P),
      t.addEdgePosePose id0 id1 relpose = some t' →
        (∃ v ∈ t.optimizer.vertices, v.id = id0) ∧ (∃ v ∈ t.optimizer.vertices, v.id = id1)) := by
  constructor
  · obtain ⟨s, E, loop, hs, hd, _, hgt, he, hends, hloop, _⟩ :=
      SE3LoopConstructor.construct_spec M L random config0 config
    have hlen : s.gt_poses.length = 12 := by
      rw [hgt]; simp [SE3LoopConstructor.circlePoses_length, SE3LoopConstructor.CIRCLE_NODES]
    have hvert : ∀ k, k < 12 → ∃ v ∈ s.optimizer.vertices, v.id = k := by
      intro k hk
      have : k ∈ s.optimizer.vertices.map (fun v => v.id) := by
        rw [hd.ids, hlen]; exact List.mem_range.mpr hk
      obtain ⟨v, hv, hid⟩ := List.mem_map.mp this
      exact ⟨v, hv, hid⟩
    refine ⟨s, hs, ?_⟩
    intro e hmem
    have hmap : s.optimizer.edges.map EdgeSE3.ends =
        (List.range 11).map (fun k => (k, k + 1)) ++ [(1, 11)] := by
      rw [he, List.map_append, hends, List.map_singleton, hloop]
    have hin : e.ends ∈ (List.range 11).map (fun k => (k, k + 1)) ++ [(1, 11)] := by
      rw [← hmap]; exact List.mem_map.mpr ⟨e, hmem, rfl⟩
    have hlt : e.id0 < 12 ∧ e.id1 < 12 := by
      rcases List.mem_append.mp hin with h | h
      · obtain ⟨k, hk, hke⟩ := List.mem_map.mp h
        have hk' := List.mem_range.mp hk
        have h0 : k = e.id0 := congrArg Prod.fst hke
        have h1 : k + 1 = e.id1 := congrArg Prod.snd hke
        omega
      · have hke := List.mem_singleton.mp h
        have h0 : e.id0 = 1 := congrArg Prod.fst hke
        have h1 : e.id1 = 11 := congrArg Prod.snd hke
        omega
    exact ⟨hvert _ hlt.1, hvert _ hlt.2⟩
  · intro t t' id0 id1 relpose h
    simp only [SE3LoopConstructor.addEdgePosePose] at h
    split at h
    · rename_i v0 v1 h0 h1
      exact ⟨⟨v0, List.mem_of_find?_eq_some h0, t.optimizer.find_id id0 v0 h0⟩,
        ⟨v1, List.mem_of_find?_eq_some h1, t.optimizer.find_id id1 v1 h1⟩⟩
    · exact absurd h (by simp)

/-! ## The accept ratio of the frame loop -/

theorem roundEven_ge_floor (y : ℚ) : ⌊y⌋ ≤ roundEven y := by
  unfold roundEven
  split_ifs <;> omega

theorem roundEven_le_floor_succ (y : ℚ) : roundEven y ≤ ⌊y⌋ + 1 := by
  unfold roundEven
  split_ifs <;> omega

theorem roundEven_intCast (m : ℤ) : roundEven (m : ℚ) = m := by
  unfold roundEven
  simp

theorem roundEven_le (y : ℚ) (m : ℤ) (h : y ≤ m) : roundEven y ≤ m := by
  rcases eq_or_lt_of_le h with h | h
  · rw [h, roundEven_intCast]
  · have : ⌊y⌋ < m := Int.floor_lt.mpr h
    have := roundEven_le_floor_succ y
    omega

theorem le_roundEven (y : ℚ) (m : ℤ) (h : (m : ℚ) ≤ y) : m ≤ roundEven y :=
  le_trans (Int.le_floor.mpr h) (roundEven_ge_floor y)

theorem roundEven_eq (y : ℚ) (m : ℤ) (h1 : (m : ℚ) - 1 / 2 < y) (h2 : y < (m : ℚ) + 1 / 2) :
    roundEven y = m := by
  unfold roundEven
  by_cases hm : (m : ℚ) ≤ y
  · have hf : ⌊y⌋ = m := Int.floor_eq_iff.mpr ⟨hm, by linarith⟩
    rw [hf, if_pos (by linarith)]
  · have hf : ⌊y⌋ = m - 1 :=
      Int.floor_eq_iff.mpr ⟨by push_cast; linarith, by push_cast; linarith⟩
    rw [hf, if_neg (by push_cast; linarith), if_pos (by push_cast; linarith)]
    omega

theorem roundEven_half_odd (y : ℚ) (f : ℤ) (hy : y = (f : ℚ) + 1 / 2) (hodd : f % 2 = 1) :
    roundEven y = f + 1 := by
  have hf : ⌊y⌋ = f := Int.floor_eq_iff.mpr ⟨by rw [hy]; linarith, by rw [hy]; linarith⟩
  unfold roundEven
  rw [hf, hy, if_neg (by norm_num), if_neg (by norm_num), if_neg (by omega)]

namespace F32

theorem ulp_pos (x : ℚ) : 0 < ulp x := by
  unfold ulp
  positivity

theorem exponent_eq (x : ℚ) (e : ℤ) (he : -126 ≤ e) (h1 : (2 : ℚ) ^ e ≤ |x|)
    (h2 : |x| < (2 : ℚ) ^ (e + 1)) : exponent x = e := by
  have hpos : 0 < |x| := lt_of_lt_of_le (by positivity) h1
  have a : e ≤ Int.log 2 |x| :=
    (Int.zpow_le_iff_le_log (by norm_num) hpos).mp (by simpa using h1)
  have b : Int.log 2 |x| < e + 1 :=
    (Int.lt_zpow_iff_log_lt (by norm_num) hpos).mp (by simpa using h2)
  unfold exponent
  omega

/-- The binary32 value of `x`, from its binade and the nearest multiple of the spacing. -/
theorem round_eq (x u : ℚ) (e m : ℤ) (he : -126 ≤ e) (h1 : (2 : ℚ) ^ e ≤ |x|)
    (h2 : |x| < (2 : ℚ) ^ (e + 1)) (hu : (2 : ℚ) ^ (e - 23) = u)
    (hr : roundEven (x / u) = m) : round x = m * u := by
  have hx : ulp x = u := by unfold ulp; rw [exponent_eq x e he h1 h2, hu]
  unfold round
  rw [hx, hr]

theorem round_nonneg (x : ℚ) (h : 0 ≤ x) : 0 ≤ round x := by
  unfold round
  have h1 : (0 : ℤ) ≤ roundEven (x / ulp x) :=
    le_roundEven _ 0 (by simpa using div_nonneg h (le_of_lt (ulp_pos x)))
  exact mul_nonneg (by exact_mod_cast h1) (le_of_lt (ulp_pos x))

theorem round_nonpos (x : ℚ) (h : x ≤ 0) : round x ≤ 0 := by
  unfold round
  have h1 : roundEven (x / ulp x) ≤ (0 : ℤ) :=
    roundEven_le _ 0 (by simpa using div_nonpos_of_nonpos_of_nonneg h (le_of_lt (ulp_pos x)))
  exact mul_nonpos_of_nonpos_of_nonneg (by exact_mod_cast h1) (le_of_lt (ulp_pos x))

theorem round_le_one (x : ℚ) (h : x ≤ 1) : round x ≤ 1 := by
  rcases le_or_lt x 0 with h0 | h0
  · exact le_trans (round_nonpos x h0) zero_le_one
  · have habs : |x| = x := abs_of_pos h0
    have hlog : Int.log 2 |x| < 1 := by
      apply (Int.lt_zpow_iff_log_lt (by norm_num) (by rw [habs]; exact h0)).mp
      rw [habs]; norm_num; linarith
    have he : exponent x ≤ 0 := by unfold exponent; omega
    obtain ⟨n, hn⟩ : ∃ n : ℕ, (n : ℤ) = 23 - exponent x := ⟨(23 - exponent x).toNat, by omega⟩
    have hulp : ulp x * ((2 ^ n : ℤ) : ℚ) = 1 := by
      unfold ulp
      push_cast
      rw [← zpow_natCast, hn, ← zpow_add₀ (by norm_num)]
      have : exponent x - 23 + (23 - exponent x) = 0 := by ring
      rw [this, zpow_zero]
    have hy : x / ulp x ≤ ((2 ^ n : ℤ) : ℚ) := by
      rw [div_le_iff₀ (ulp_pos x)]
      rw [mul_comm, hulp]; exact h
    have hr := roundEven_le _ _ hy
    unfold round
    calc (roundEven (x / ulp x) : ℚ) * ulp x ≤ ((2 ^ n : ℤ) : ℚ) * ulp x :=
          mul_le_mul_of_nonneg_right (by exact_mod_cast hr) (le_of_lt (ulp_pos x))
      _ = 1 := by rw [mul_comm, hulp]

theorem one_le_round (x : ℚ) (h1 : 1 ≤ x) (h2 : x < 2) : 1 ≤ round x := by
  have habs : |x| = x := abs_of_pos (by linarith)
  have he : exponent x = 0 := exponent_eq x 0 (by norm_num) (by rw [habs]; simpa using h1)
    (by rw [habs]; simpa using h2)
  have hu : ulp x = 1 / 8388608 := by unfold ulp; rw [he]; norm_num
  unfold round
  rw [hu]
  have hr : (8388608 : ℤ) ≤ roundEven (x / (1 / 8388608)) :=
    le_roundEven _ _ (by push_cast; rw [div_div_eq_mul_div, div_one]; linarith)
  have : (8388608 : ℚ) ≤ (roundEven (x / (1 / 8388608)) : ℚ) := by exact_mod_cast hr
  linarith

/-- The literal `0.1f`. -/
theorem round_tenth : round (1 / 10) = 13421773 / 134217728 := by
  rw [round_eq (1 / 10) (1 / 134217728) (-4) 13421773 (by norm_num)
    (by rw [abs_of_pos (by norm_num)]; norm_num) (by rw [abs_of_pos (by norm_num)]; norm_num)
    (by norm_num) (roundEven_eq _ _ (by norm_num) (by norm_num))]
  norm_num

end F32

theorem stdMin_eq_min {K : Type} [LinearOrder K] (a b : K) : stdMin a b = min b a := by
  unfold stdMin
  by_cases h : b < a
  · rw [if_pos h, min_eq_left (le_of_lt h)]
  · rw [if_neg h, min_eq_right (not_lt.mp h)]

theorem stdMax_eq_max {K : Type} [LinearOrder K] (a b : K) : stdMax a b = max b a := by
  unfold stdMax
  by_cases h : a < b
  · rw [if_pos h, max_eq_left (le_of_lt h)]
  · rw [if_neg h, max_eq_right (not_lt.mp h)]

namespace FrameLoop

theorem pass_acceptRatio (s : FrameLoop) (key : Int) :
    (s.pass key).acceptRatio =
      if key = 117 ∨ key = 85 then min 1 (F32.round (s.acceptRatio + F32.round (1 / 10)))
      else if key = 100 ∨ key = 68 then max 0 (F32.round (s.acceptRatio - F32.round (1 / 10)))
      else s.acceptRatio := by
  have hf : (('f'.toNat : Nat) : Int) = 102 := by decide
  have hF : (('F'.toNat : Nat) : Int) = 70 := by decide
  have hu : (('u'.toNat : Nat) : Int) = 117 := by decide
  have hU : (('U'.toNat : Nat) : Int) = 85 := by decide
  have hd : (('d'.toNat : Nat) : Int) = 100 := by decide
  have hD : (('D'.toNat : Nat) : Int) = 68 := by decide
  have hq : (('q'.toNat : Nat) : Int) = 113 := by decide
  have hQ : (('Q'.toNat : Nat) : Int) = 81 := by decide
  simp only [pass, hf, hF, hu, hU, hd, hD, hq, hQ, stdMin_eq_min, stdMax_eq_max]
  by_cases h1 : key = 102 ∨ key = 70
  · have h2 : ¬ (key = 117 ∨ key = 85) := by omega
    have h3 : ¬ (key = 100 ∨ key = 68) := by omega
    simp only [if_pos h1, if_neg h2, if_neg h3]
    split <;> rfl
  · by_cases h2 : key = 117 ∨ key = 85
    · simp only [if_neg h1, if_pos h2]
      split <;> rfl
    · by_cases h3 : key = 100 ∨ key = 68
      · simp only [if_neg h1, if_neg h2, if_pos h3]
        split <;> rfl
      · by_cases h4 : key = 113 ∨ key = 81
        · simp only [if_neg h1, if_neg h2, if_neg h3, if_pos h4]
          split <;> rfl
        · simp only [if_neg h1, if_neg h2, if_neg h3, if_neg h4]
          split <;> rfl

theorem pass_matched (s : FrameLoop) (key : Int) :
    (s.pass key).matched = s.matched ∨
      (s.pass key).matched = s.matched ++ [(s.pass key).acceptRatio] := by
  have aux : ∀ t : FrameLoop, t.matched = s.matched →
      ((if t.quit then t else { t with matched := t.matched ++ [t.acceptRatio] }).matched
          = s.matched ∨
        (if t.quit then t else { t with matched := t.matched ++ [t.acceptRatio] }).matched
          = s.matched ++
            [(if t.quit then t
              else { t with matched := t.matched ++ [t.acceptRatio] }).acceptRatio]) := by
    intro t ht
    by_cases hq : t.quit = true
    · left; rw [if_pos hq]; exact ht
    · right; rw [if_neg hq, ← ht]
  apply aux
  split_ifs <;> rfl

theorem pass_inRange (s : FrameLoop) (key : Int) (h : s.InRange) : (s.pass key).InRange := by
  have ht : 0 ≤ F32.round (1 / 10) := F32.round_nonneg _ (by norm_num)
  have hr : 0 ≤ (s.pass key).acceptRatio ∧ (s.pass key).acceptRatio ≤ 1 := by
    rw [pass_acceptRatio]
    obtain ⟨⟨h0, h1⟩, _⟩ := h
    split_ifs
    · exact ⟨le_min zero_le_one (F32.round_nonneg _ (by linarith)), min_le_left _ _⟩
    · exact ⟨le_max_left _ _, max_le zero_le_one (F32.round_le_one _ (by linarith))⟩
    · exact ⟨h0, h1⟩
  refine ⟨hr, ?_⟩
  intro r hmem
  rcases pass_matched s key with hm | hm
  · rw [hm] at hmem; exact h.2 r hmem
  · rw [hm] at hmem
    rcases List.mem_append.mp hmem with h' | h'
    · exact h.2 r h'
    · rw [List.mem_singleton.mp h']; exact hr

theorem run_inRange (keys : List Int) : ∀ s : FrameLoop, s.InRange → (s.run keys).InRange := by
  induction keys with
  | nil => intro s h; exact h
  | cons key keys ih =>
    intro s h
    simp only [run]
    split
    · exact pass_inRange s key h
    · exact ih _ (pass_inRange s key h)

/-- One more key event: when the loop has been left nothing happens, otherwise one more
pass is made. -/
theorem run_append (keys : List Int) (key : Int) :
    ∀ s : FrameLoop, s.quit = false →
      s.run (keys ++ [key]) = if (s.run keys).quit then s.run keys else (s.run keys).pass key := by
  induction keys with
  | nil =>
    intro s hs
    simp only [List.nil_append, run, hs]
    split <;> simp
  | cons k ks ih =>
    intro s hs
    simp only [List.cons_append, run]
    by_cases hq : (s.pass k).quit = true
    · simp only [if_pos hq]
    · simp only [if_neg hq]
      exact ih _ (by simpa using hq)

theorem init_inRange : init.InRange := by
  refine ⟨⟨?_, ?_⟩, ?_⟩
  · simp [init]
  · simp only [init]; norm_num
  · intro r hr; simp [init] at hr

end FrameLoop

namespace FrameLoop

theorem pass_quit (s : FrameLoop) (key : Int) (h1 : key ≠ 113) (h2 : key ≠ 81) :
    (s.pass key).quit = s.quit := by
  have hf : (('f'.toNat : Nat) : Int) = 102 := by decide
  have hF : (('F'.toNat : Nat) : Int) = 70 := by decide
  have hu : (('u'.toNat : Nat) : Int) = 117 := by decide
  have hU : (('U'.toNat : Nat) : Int) = 85 := by decide
  have hd : (('d'.toNat : Nat) : Int) = 100 := by decide
  have hD : (('D'.toNat : Nat) : Int) = 68 := by decide
  have hq : (('q'.toNat : Nat) : Int) = 113 := by decide
  have hQ : (('Q'.toNat : Nat) : Int) = 81 := by decide
  have h4 : ¬ (key = 113 ∨ key = 81) := by omega
  simp only [pass, hf, hF, hu, hU, hd, hD, hq, hQ, if_neg h4]
  split_ifs <;> rfl

/-- The accept ratio after `n` passes with the same key, neither `q` nor `Q`. -/
theorem run_replicate (key : Int) (h1 : key ≠ 113) (h2 : key ≠ 81) (f : ℚ → ℚ)
    (hf : ∀ s : FrameLoop, (s.pass key).acceptRatio = f s.acceptRatio) (n : Nat) :
    ∀ s : FrameLoop, s.quit = false →
      (s.run (List.replicate n key)).acceptRatio = f^[n] s.acceptRatio := by
  induction n with
  | zero => intro s _; rfl
  | succ n ih =>
    intro s hs
    have hq : (s.pass key).quit = false := by rw [pass_quit s key h1 h2, hs]
    rw [List.replicate_succ, run, if_neg (by rw [hq]; decide), ih _ hq, hf,
      Function.iterate_succ_apply]

end FrameLoop

theorem up_step1 : F32.round (1 / 2 + 13421773 / 134217728) = 5033165 / 8388608 := by
  rw [F32.round_eq _ (1 / 16777216) (-1) 10066330 (by norm_num)
    (by rw [abs_of_pos (by norm_num)]; norm_num) (by rw [abs_of_pos (by norm_num)]; norm_num)
    (by norm_num) (roundEven_eq _ _ (by norm_num) (by norm_num))]
  norm_num

theorem up_step2 : F32.round (5033165 / 8388608 + 13421773 / 134217728) = 2936013 / 4194304 := by
  rw [F32.round_eq _ (1 / 16777216) (-1) 11744052 (by norm_num)
    (by rw [abs_of_pos (by norm_num)]; norm_num) (by rw [abs_of_pos (by norm_num)]; norm_num)
    (by norm_num) (roundEven_eq _ _ (by norm_num) (by norm_num))]
  norm_num

theorem up_step3 : F32.round (2936013 / 4194304 + 13421773 / 134217728) = 6710887 / 8388608 := by
  rw [F32.round_eq _ (1 / 16777216) (-1) 13421774 (by norm_num)
    (by rw [abs_of_pos (by norm_num)]; norm_num) (by rw [abs_of_pos (by norm_num)]; norm_num)
    (by norm_num) (roundEven_eq _ _ (by norm_num) (by norm_num))]
  norm_num

theorem up_step4 : F32.round (6710887 / 8388608 + 13421773 / 134217728) = 1887437 / 2097152 := by
  rw [F32.round_eq _ (1 / 16777216) (-1) 15099496 (by norm_num)
    (by rw [abs_of_pos (by norm_num)]; norm_num) (by rw [abs_of_pos (by norm_num)]; norm_num)
    (by norm_num) (roundEven_eq _ _ (by norm_num) (by norm_num))]
  norm_num

theorem up_step5 : F32.round (1887437 / 2097152 + 13421773 / 134217728) = 8388609 / 8388608 := by
  rw [F32.round_eq _ (1 / 8388608) 0 8388609 (by norm_num)
    (by rw [abs_of_pos (by norm_num)]; norm_num) (by rw [abs_of_pos (by norm_num)]; norm_num)
    (by norm_num) (roundEven_eq _ _ (by norm_num) (by norm_num))]
  norm_num

theorem down_step1 : F32.round (1 / 2 - 13421773 / 134217728) = 13421773 / 33554432 := by
  rw [F32.round_eq _ (1 / 33554432) (-2) 13421773 (by norm_num)
    (by rw [abs_of_pos (by norm_num)]; norm_num) (by rw [abs_of_pos (by norm_num)]; norm_num)
    (by norm_num) (roundEven_eq _ _ (by norm_num) (by norm_num))]
  norm_num

theorem down_step2 :
    F32.round (13421773 / 33554432 - 13421773 / 134217728) = 5033165 / 16777216 := by
  rw [F32.round_eq _ (1 / 33554432) (-2) 10066330 (by norm_num)
    (by rw [abs_of_pos (by norm_num)]; norm_num) (by rw [abs_of_pos (by norm_num)]; norm_num)
    (by norm_num) (roundEven_eq _ _ (by norm_num) (by norm_num))]
  norm_num

theorem down_step3 :
    F32.round (5033165 / 16777216 - 13421773 / 134217728) = 6710887 / 33554432 := by
  rw [F32.round_eq _ (1 / 67108864) (-3) 13421774 (by norm_num)
    (by rw [abs_of_pos (by norm_num)]; norm_num) (by rw [abs_of_pos (by norm_num)]; norm_num)
    (by norm_num) (roundEven_half_odd _ 13421773 (by norm_num) (by decide))]
  norm_num

theorem down_step4 :
    F32.round (6710887 / 33554432 - 13421773 / 134217728) = 13421775 / 134217728 := by
  rw [F32.round_eq _ (1 / 134217728) (-4) 13421775 (by norm_num)
    (by rw [abs_of_pos (by norm_num)]; norm_num) (by rw [abs_of_pos (by norm_num)]; norm_num)
    (by norm_num) (roundEven_eq _ _ (by norm_num) (by norm_num))]
  norm_num

theorem down_step5 :
    F32.round (13421775 / 134217728 - 13421773 / 134217728) = 1 / 67108864 := by
  rw [F32.round_eq _ (1 / 562949953421312) (-26) 8388608 (by norm_num)
    (by rw [abs_of_pos (by norm_num)]; norm_num) (by rw [abs_of_pos (by norm_num)]; norm_num)
    (by norm_num) (roundEven_eq _ _ (by norm_num) (by norm_num))]
  norm_num

/-- Saturation in the frame loop: five `u` from `0.5` reach `1.0`; five `d` from `0.5`
reach `2⁻²⁶`, not `0`, and the sixth reaches `0.0`. -/
theorem acceptRatio_saturates :
    (FrameLoop.init.run (List.replicate 5 (('u'.toNat : Nat) : Int))).acceptRatio = 1 ∧
    (FrameLoop.init.run (List.replicate 5 (('d'.toNat : Nat) : Int))).acceptRatio
      = 1 / 67108864 ∧
    (FrameLoop.init.run (List.replicate 6 (('d'.toNat : Nat) : Int))).acceptRatio = 0 := by
  have hu : (('u'.toNat : Nat) : Int) = 117 := by decide
  have hd : (('d'.toNat : Nat) : Int) = 100 := by decide
  obtain ⟨up, hup⟩ : ∃ up : ℚ → ℚ,
      ∀ r, up r = min 1 (F32.round (r + 13421773 / 134217728)) := ⟨_, fun _ => rfl⟩
  obtain ⟨dn, hdn⟩ : ∃ dn : ℚ → ℚ,
      ∀ r, dn r = max 0 (F32.round (r - 13421773 / 134217728)) := ⟨_, fun _ => rfl⟩
  have hpu : ∀ s : FrameLoop, (s.pass 117).acceptRatio = up s.acceptRatio := by
    intro s
    rw [FrameLoop.pass_acceptRatio, if_pos (Or.inl rfl), F32.round_tenth, hup]
  have hpd : ∀ s : FrameLoop, (s.pass 100).acceptRatio = dn s.acceptRatio := by
    intro s
    rw [FrameLoop.pass_acceptRatio, if_neg (by decide), if_pos (Or.inl rfl), F32.round_tenth,
      hdn]
  have u1 : up (1 / 2) = 5033165 / 8388608 := by rw [hup, up_step1]; norm_num
  have u2 : up (5033165 / 8388608) = 2936013 / 4194304 := by rw [hup, up_step2]; norm_num
  have u3 : up (2936013 / 4194304) = 6710887 / 8388608 := by rw [hup, up_step3]; norm_num
  have u4 : up (6710887 / 8388608) = 1887437 / 2097152 := by rw [hup, up_step4]; norm_num
  have u5 : up (1887437 / 2097152) = 1 := by rw [hup, up_step5]; norm_num
  have d1 : dn (1 / 2) = 13421773 / 33554432 := by rw [hdn, down_step1]; norm_num
  have d2 : dn (13421773 / 33554432) = 5033165 / 16777216 := by rw [hdn, down_step2]; norm_num
  have d3 : dn (5033165 / 16777216) = 6710887 / 33554432 := by rw [hdn, down_step3]; norm_num
  have d4 : dn (6710887 / 33554432) = 13421775 / 134217728 := by rw [hdn, down_step4]; norm_num
  have d5 : dn (13421775 / 134217728) = 1 / 67108864 := by rw [hdn, down_step5]; norm_num
  have d6 : dn (1 / 67108864) = 0 := by
    rw [hdn]
    exact max_eq_left (F32.round_nonpos _ (by norm_num))
  have hinit : FrameLoop.init.acceptRatio = 1 / 2 := rfl
  rw [hu, hd, FrameLoop.run_replicate 117 (by decide) (by decide) up hpu 5 _ rfl,
    FrameLoop.run_replicate 100 (by decide) (by decide) dn hpd 5 _ rfl,
    FrameLoop.run_replicate 100 (by decide) (by decide) dn hpd 6 _ rfl, hinit]
  simp only [Function.iterate_succ_apply, Function.iterate_zero_apply]
  rw [u1, u2, u3, u4, u5, d1, d2, d3, d4, d5, d6]
  exact ⟨rfl, rfl, rfl⟩

/-- C7 (as amended): in the frame loop of `main`, from the initial accept ratio `0.5`,
after every finite sequence of key events the accept ratio, and every ratio handed to
`matchAndDraw` on the way, lies in `[0, 1]`.  Once the loop has been left a further key
changes nothing; while it runs, a pass with `u` or `U` sets the ratio to
`min(1, fl(ratio + 0.1f))` and one with `d` or `D` to `max(0, fl(ratio - 0.1f))`, where
`0.1f = 13421773 / 2^27` is the binary32 constant and `fl` rounds the exact result to
binary32; so `u` at ratio `1` leaves `1` and `d` at ratio `0` leaves `0`; a pass with
any other key value (no key is `-1`) leaves the ratio as it is. -/
theorem acceptRatio_key_table (keys : List Int) (key : Int) :
    ((0 ≤ (FrameLoop.init.run keys).acceptRatio ∧ (FrameLoop.init.run keys).acceptRatio ≤ 1) ∧
      ∀ r ∈ (FrameLoop.init.run keys).matched, 0 ≤ r ∧ r ≤ 1) ∧
    FrameLoop.init.acceptRatio = 1 / 2 ∧
    F32.round (1 / 10) = 13421773 / 2 ^ 27 ∧
    ((FrameLoop.init.run keys).quit = true →
      FrameLoop.init.run (keys ++ [key]) = FrameLoop.init.run keys) ∧
    ((FrameLoop.init.run keys).quit = false →
      (key = ('u'.toNat : Nat) ∨ key = ('U'.toNat : Nat) →
        (FrameLoop.init.run (keys ++ [key])).acceptRatio =
          min 1 (F32.round ((FrameLoop.init.run keys).acceptRatio + F32.round (1 / 10)))) ∧
      (key = ('d'.toNat : Nat) ∨ key = ('D'.toNat : Nat) →
        (FrameLoop.init.run (keys ++ [key])).acceptRatio =
          max 0 (F32.round ((FrameLoop.init.run keys).acceptRatio - F32.round (1 / 10)))) ∧
      (key = ('u'.toNat : Nat) ∨ key = ('U'.toNat : Nat) →
        (FrameLoop.init.run keys).acceptRatio = 1 →
        (FrameLoop.init.run (keys ++ [key])).acceptRatio = 1) ∧
      (key = ('d'.toNat : Nat) ∨ key = ('D'.toNat : Nat) →
        (FrameLoop.init.run keys).acceptRatio = 0 →
        (FrameLoop.init.run (keys ++ [key])).acceptRatio = 0) ∧
      (key ≠ ('u'.toNat : Nat) ∧ key ≠ ('U'.toNat : Nat) ∧ key ≠ ('d'.toNat : Nat) ∧
        key ≠ ('D'.toNat : Nat) →
        (FrameLoop.init.run (keys ++ [key])).acceptRatio =
          (FrameLoop.init.run keys).acceptRatio)) := by
  have hu : (('u'.toNat : Nat) : Int) = 117 := by decide
  have hU : (('U'.toNat : Nat) : Int) = 85 := by decide
  have hd : (('d'.toNat : Nat) : Int) = 100 := by decide
  have hD : (('D'.toNat : Nat) : Int) = 68 := by decide
  have happ := FrameLoop.run_append keys key FrameLoop.init rfl
  rw [hu, hU, hd, hD]
  refine ⟨FrameLoop.run_inRange keys _ FrameLoop.init_inRange, rfl, ?_, ?_, ?_⟩
  · rw [F32.round_tenth]; norm_num
  · intro hq
    rw [happ, if_pos hq]
  · intro hq
    rw [happ, if_neg (by rw [hq]; decide), FrameLoop.pass_acceptRatio]
    refine ⟨?_, ?_, ?_, ?_, ?_⟩
    · intro hk
      rw [if_pos hk]
    · intro hk
      rw [if_neg (by omega), if_pos hk]
    · intro hk h1
      rw [if_pos hk, h1]
      exact min_eq_left (F32.one_le_round _
        (by rw [F32.round_tenth]; norm_num) (by rw [F32.round_tenth]; norm_num))
    · intro hk h0
      rw [if_neg (by omega), if_pos hk, h0]
      exact max_eq_left (F32.round_nonpos _
        (by rw [F32.round_tenth]; norm_num))
    · rintro ⟨k1, k2, k3, k4⟩
      rw [if_neg (by omega), if_neg (by omega)]

/-- C7 (counterexample): after the one key `u` from the initial ratio `0.5` the accept
ratio is the binary32 number `5033165 / 8388608 = 0.600000024`, not
`min(1, 0.5 + 0.1) = 0.6`. -/
theorem acceptRatio_u_not_exact :
    (FrameLoop.init.run [(('u'.toNat : Nat) : Int)]).acceptRatio = 5033165 / 8388608 ∧
    (FrameLoop.init.run [(('u'.toNat : Nat) : Int)]).acceptRatio ≠
      min 1 (FrameLoop.init.acceptRatio + 1 / 10) := by
  have hu : (('u'.toNat : Nat) : Int) = 117 := by decide
  have happ := FrameLoop.run_append [] 117 FrameLoop.init rfl
  have hval : (FrameLoop.init.run [(('u'.toNat : Nat) : Int)]).acceptRatio
      = 5033165 / 8388608 := by
    rw [hu]
    rw [List.nil_append] at happ
    rw [happ]
    have h0 : (FrameLoop.init.run []).quit = false := rfl
    rw [if_neg (by rw [h0]; decide), FrameLoop.pass_acceptRatio, if_pos (Or.inl rfl),
      F32.round_tenth]
    have h1 : (FrameLoop.init.run []).acceptRatio = 1 / 2 := rfl
    rw [h1, up_step1]
    norm_num
  refine ⟨hval, ?_⟩
  rw [hval]
  have h1 : FrameLoop.init.acceptRatio = 1 / 2 := rfl
  rw [h1]
  norm_num

/-- C10: over the reals, with `PI` the exact `π` and the exact `sin`, `cos` and `sqrt`,
and `edge_noise = false`: `construct` on a new constructor and an empty optimizer
returns; the last ground-truth pose is the same pose as `gt_poses[1]`, translation
`(1,0,0)` with identity rotation; composing the per-step relative pose ten times gives
the identity pose; and the last edge of the graph, the loop-closure edge `(1,11)`, has
the identity pose as its measurement. -/
theorem construct_circle_closes (random : Nat → ℝ) (config0 : G2oConfig ℝ) (init_vtx : Bool)
    (tran_noise : Vector3d ℝ) (quat_noise : Vector4d ℝ) :
    ∃ s loop, (SE3LoopConstructor.new config0).construct
        (MathEnv.mk Real.pi Real.sin Real.cos Real.sqrt)
        (g2oLib (MathEnv.mk Real.pi Real.sin Real.cos Real.sqrt)) random SparseOptimizer.empty
        ⟨init_vtx, false, tran_noise, quat_noise⟩ = some s ∧
      s.gt_poses.length = 12 ∧
      s.gt_poses[1]? = some ⟨⟨0, 0, 0, 1⟩, ⟨1, 0, 0⟩⟩ ∧
      s.gt_poses[11]? = some ⟨⟨0, 0, 0, 1⟩, ⟨1, 0, 0⟩⟩ ∧
      (List.replicate 10 (SE3LoopConstructor.circleRelpose
          (MathEnv.mk Real.pi Real.sin Real.cos Real.sqrt)
          (g2oLib (MathEnv.mk Real.pi Real.sin Real.cos Real.sqrt)) 2)).foldl
        (g2oLib (MathEnv.mk Real.pi Real.sin Real.cos Real.sqrt)).mul
        (g2oLib (MathEnv.mk Real.pi Real.sin Real.cos Real.sqrt)).identity
        = SE3Quat.Identity ∧
      s.optimizer.edges.getLast? = some loop ∧ loop.ends = (1, 11) ∧
      loop.measurement = SE3Quat.Identity := by
  obtain ⟨s, E, loop, hs, _, _, hgt, he, _, hloop, hmeas⟩ :=
    SE3LoopConstructor.construct_spec (MathEnv.mk Real.pi Real.sin Real.cos Real.sqrt)
      (g2oLib (MathEnv.mk Real.pi Real.sin Real.cos Real.sqrt)) random config0
      ⟨init_vtx, false, tran_noise, quat_noise⟩
  have hp1 : (g2oLib (MathEnv.mk Real.pi Real.sin Real.cos Real.sqrt)).ofQuatTran
      Quaterniond.Identity ⟨1, 0, 0⟩ = ⟨⟨0, 0, 0, 1⟩, ⟨1, 0, 0⟩⟩ :=
    ofQuatTran_identity _ rfl _
  obtain ⟨hlast, hfold⟩ := circle_returns
  rw [hp1] at hgt hmeas
  have hback : s.gt_poses.getLast? = some ⟨⟨0, 0, 0, 1⟩, ⟨1, 0, 0⟩⟩ := by
    rw [hgt, ← hlast]
    simp [List.getLast?_cons_cons]
  have hlen : s.gt_poses.length = 12 := by
    rw [hgt]; simp [SE3LoopConstructor.circlePoses_length, SE3LoopConstructor.CIRCLE_NODES]
  refine ⟨s, loop, hs, hlen, by rw [hgt]; rfl, ?_, hfold, ?_, hloop, ?_⟩
  · rw [List.getLast?_eq_getElem?, hlen] at hback
    exact hback
  · rw [he]; simp
  · rw [(hmeas rfl).2 _ hback]
    exact inverse_mul_anchor _ rfl 1
